import Mathlib

/-!
# Verification of the `functor_derive` code-generation engine

This file gives a shallow embedding of the `functor_derive` derive-macro
engine (`functor_derive_lib/src/lib.rs`) and of its analysis/synthesis
core, and proves the specified properties about them.

* The dispatch (`derive`) and the per-parameter generator (`generate_impl`)
  are translated directly from `lib.rs`.
* The Shape Analyzer and the Expression Synthesizer live in the modules
  `generate_map` / `generate_fmap_body`, whose sources are not in the
  checkout; they are modelled from the specification (each such definition
  carries a `Modelled from the spec:` doc comment).
-/

namespace FunctorDerive

/-! ## Syntax of Rust field types (input to the Shape Analyzer) -/

/-- Syntax of a declared Rust field type, as the derive macro sees it:
a plain path identifier (possibly the target parameter), redundant
parentheses, a tuple type, a fixed-size array with a literal length, or a
path type with generic type arguments (e.g. `Vec<A>`, `HashMap<K, V>`,
`PhantomData<A>`). -/
inductive RType where
  | ident (name : String)
  | paren (t : RType)
  | tuple (ts : List RType)
  | array (t : RType) (len : Nat)
  | path (name : String) (args : List RType)

/-- A field of a struct or of an enum variant: its name (or position,
rendered as a string) and its declared type. -/
structure Field where
  name : String
  ty : RType

/-- The body of the subject definition: a struct's fields, or an enum's
variants (each a tag together with its fields). -/
inductive Data where
  | structData (fields : List Field)
  | enumData (variants : List (String × List Field))

/-! ## Generic parameters and arguments (from `lib.rs`) -/

/-- A generic parameter of the subject definition: a lifetime, a type
parameter with its trait bounds, or a const parameter
(mirrors `syn::GenericParam` as used by `generate_impl`). -/
inductive GenericParam where
  | lifetime (name : String)
  | typeP (name : String) (bounds : List String)
  | constP (name : String)
deriving DecidableEq, Repr

/-- A generic argument appearing in `Name<args>` positions of the
generated code (mirrors `syn::GenericArgument` as built in
`generate_impl`): a lifetime, a plain path type, or a const expression. -/
inductive GenericArgument where
  | lifetimeArg (name : String)
  | typeArg (name : String)
  | constArg (name : String)
deriving DecidableEq, Repr

/-- The subject definition handed to the macro: its name, its generic
parameters in declaration order, and its data (mirrors
`syn::DeriveInput`). -/
structure DeriveInput where
  ident : String
  genParams : List GenericParam
  data : Data

/-- A compile-time diagnostic produced by `abort_call_site!`. -/
structure Diagnostic where
  message : String
deriving DecidableEq, Repr

/-- `source_args` of `generate_impl`: each generic parameter turned into
the generic argument that just names it. -/
def paramToArg : GenericParam → GenericArgument
  | .lifetime l => .lifetimeArg l
  | .typeP t _ => .typeArg t
  | .constP c => .constArg c

/-- The `find_map` in `generate_impl`: position and bounds of the first
*type* generic parameter whose identifier equals the functor parameter.
Lifetime and const parameters are skipped (they count for the position but
can never match). -/
def findFunctorParam : List GenericParam → String → Option (Nat × List String)
  | [], _ => none
  | .typeP n bs :: rest, p =>
      if n = p then some (0, bs)
      else (findFunctorParam rest p).map (fun ib => (ib.1 + 1, ib.2))
  | _ :: rest, p => (findFunctorParam rest p).map (fun ib => (ib.1 + 1, ib.2))

/-- The generated `fmap` body, represented symbolically by the inputs of
`generate_fmap_body::generate_fmap_body` (the definition's data, its name,
the functor parameter, and whether the fallible variant is generated). -/
structure FmapBody where
  data : Data
  defName : String
  functorParam : String
  fallible : Bool

/-- The body of one generated method: `self.target(&__f)` delegation,
the synthesized `fmap` body itself, or `Ok(body)` around the synthesized
fallible body. -/
inductive MethodBody where
  | delegate (target : String)
  | synthesized (body : FmapBody)
  | okWrapped (body : FmapBody)

/-- One generated free-standing method: its name, the bounds placed on the
output element type `__B`, whether it has the extra error type parameter
`__E`, and its body. -/
structure Method where
  name : String
  outBounds : List String
  hasErrParam : Bool
  body : MethodBody

/-- The generated code of one `generate_impl` invocation: either the
`Functor` trait impl (with `type Target<__B>` and the two `_ref` methods),
or an inherent impl with the four free-standing methods. Both carry the
generics of the impl header and the source/target generic-argument lists
used in the declared types. -/
inductive Output where
  | traitImpl (genParams : List GenericParam) (functorParam : String)
      (defName : String) (sourceArgs targetArgs : List GenericArgument)
      (fmapRefBody tryFmapRefBody : FmapBody)
  | inherentImpl (genParams : List GenericParam) (defName : String)
      (sourceArgs targetArgs : List GenericArgument)
      (methods : List Method)

/-- The source generic-argument list of a generated impl. -/
def Output.sourceArgs : Output → List GenericArgument
  | .traitImpl _ _ _ s _ _ _ => s
  | .inherentImpl _ _ s _ _ => s

/-- The target generic-argument list (the declared output type's
arguments) of a generated impl. -/
def Output.targetArgs : Output → List GenericArgument
  | .traitImpl _ _ _ _ t _ _ => t
  | .inherentImpl _ _ _ t _ => t

/-- Whether the generated code is the `Functor` trait impl. -/
def Output.isTraitImpl : Output → Bool
  | .traitImpl _ _ _ _ _ _ _ => true
  | .inherentImpl _ _ _ _ _ => false

/-- The methods of a generated inherent impl (`[]` for the trait impl,
whose two methods are fixed by the trait). -/
def Output.methods : Output → List Method
  | .traitImpl _ _ _ _ _ _ _ => []
  | .inherentImpl _ _ _ _ ms => ms

/-- The name-suffix string appended to generated operation names:
`"_" ++ suffix` when a suffix was requested, empty otherwise
(the `format!("_{name_suffix}")` of `generate_impl`). -/
def suffixString : Option String → String
  | some s => "_" ++ s
  | none => ""

/-- The four free-standing methods generated in the inherent-impl branch
of `generate_impl`, for a given suffix string and bounds. The method
names carry the suffix (`format_ident!("fmap{suffix}")` etc.), but the
owning methods' bodies are the literal, uninterpolated
`self.fmap_ref(&__f)` / `self.try_fmap_ref(&__f)` of the `quote!` block:
their delegation targets are the unsuffixed names. -/
def fourMethods (bounds : List String) (sfx : String)
    (fmapBody tryBody : FmapBody) : List Method :=
  [⟨"fmap" ++ sfx, bounds, false, .delegate "fmap_ref"⟩,
   ⟨"fmap_ref" ++ sfx, bounds, false, .synthesized fmapBody⟩,
   ⟨"try_fmap" ++ sfx, bounds, true, .delegate "try_fmap_ref"⟩,
   ⟨"try_fmap_ref" ++ sfx, bounds, true, .okWrapped tryBody⟩]

/-- `generate_impl` from `lib.rs`: find the functor parameter among the
generic parameters (aborting with a diagnostic if absent), build the
source and target generic-argument lists, generate the two bodies, and
emit either the `Functor` trait impl (no bounds on the parameter and no
name suffix) or the inherent impl with the four suffixed methods. -/
def generate_impl (input : DeriveInput) (defName : String)
    (functorParam : String) (nameSuffix : Option String) :
    Except Diagnostic Output :=
  let genParams := input.genParams
  match findFunctorParam genParams functorParam with
  | none =>
      .error ⟨"The generic parameter `" ++ functorParam ++
        "` could not be found in the definition of `" ++ defName ++ "`."⟩
  | some (idx, bounds) =>
      let sourceArgs := genParams.map paramToArg
      let targetArgs := sourceArgs.set idx (.typeArg "__B")
      let fmapBody : FmapBody := ⟨input.data, defName, functorParam, false⟩
      let tryBody : FmapBody := ⟨input.data, defName, functorParam, true⟩
      if bounds.isEmpty && nameSuffix.isNone then
        .ok (.traitImpl genParams functorParam defName sourceArgs targetArgs
          fmapBody tryBody)
      else
        let sfx := suffixString nameSuffix
        .ok (.inherentImpl genParams defName sourceArgs targetArgs
          (fourMethods bounds sfx fmapBody tryBody))

/-- Modelled from the spec: the attribute-parsing collaborator
(`functor_param` module, not in the checkout) resolves the target-parameter
specification into "either a single identifier or an ordered list of
(identifier, name-suffix) pairs". -/
inductive Attribute where
  | single (param : String)
  | many (params : List (String × String))
deriving DecidableEq, Repr

/-- The `Attribute::Many` loop of `derive`: run `generate_impl` once per
listed parameter, in the listed order, extending the token stream; an
abort in any run aborts the whole derive. -/
def manyImpls (input : DeriveInput) :
    List (String × String) → Except Diagnostic (List Output)
  | [] => .ok []
  | (p, sfx) :: rest =>
      match generate_impl input input.ident p (some sfx) with
      | .error d => .error d
      | .ok o => (manyImpls input rest).map (fun os => o :: os)

/-- `derive` from `lib.rs`, after the external attribute layer has
resolved the target-parameter specification: a single parameter runs
`generate_impl` once without a name suffix; a list runs it once per
parameter with that parameter's suffix. -/
def deriveTokens (input : DeriveInput) : Attribute →
    Except Diagnostic (List Output)
  | .single p => (generate_impl input input.ident p none).map (fun o => [o])
  | .many ps => manyImpls input ps

/-! ## The Shape Analyzer (`generate_map` module, modelled from the spec) -/

/-- Modelled from the spec: the kind of a container in the fixed registry
of recognized generic container shapes — one-argument single-value
containers (an optional value, a box), one-argument ordered multi-element
collections, and two-argument keyed containers where only the value type
is mapped. Each kind keeps the container's well-known name. -/
inductive ContainerKind where
  | singleValue (name : String)
  | ordered (name : String)
  | keyed (name : String)
deriving DecidableEq, Repr

/-- Modelled from the spec: `TypeShape`, the immutable, purely structural
description of how the target parameter occurs within a declared field
type. A parenthesized type transparently unwraps to the inner shape and is
never a distinct case in the output. -/
inductive TypeShape where
  | direct
  | opaqueS
  | tuple (shapes : List TypeShape)
  | array (shape : TypeShape) (len : Nat)
  | container (kind : ContainerKind) (shapes : List TypeShape)
  | marker

/-- Modelled from the spec: the fixed, syntactic registry of recognized
container shapes, matched by well-known name and arity (the containers
exercised by the repository's tests: `Option`/`Box` single-value, `Vec`/
`VecDeque` ordered, `HashMap` keyed). -/
def registryKind (name : String) : Option ContainerKind :=
  if name = "Option" || name = "Box" then some (.singleValue name)
  else if name = "Vec" || name = "VecDeque" then some (.ordered name)
  else if name = "HashMap" then some (.keyed name)
  else none

/-- Modelled from the spec: the marker rule of the Shape Analyzer —
`PhantomData` generically parameterized over exactly the target parameter
is `Marker`; any other argument list falls back to `Opaque`. -/
def classifyMarker (args : List RType) (p : String) : TypeShape :=
  match args with
  | [.ident q] => if q = p then .marker else .opaqueS
  | _ => .opaqueS

mutual

/-- Modelled from the spec: the Shape Analyzer. Classifies a declared
field type against the target parameter identifier, recursively: a bare
identifier equal to the parameter is `Direct`; grouping parentheses are
transparent; tuples and arrays classify componentwise; a registry match
classifies the mapped type argument(s) (for keyed containers only the
value position); `PhantomData` over exactly the parameter is `Marker`;
everything else — whether or not the parameter occurs somewhere inside —
falls back to `Opaque`. -/
def classify : RType → String → TypeShape
  | .ident n, p => if n = p then .direct else .opaqueS
  | .paren t, p => classify t p
  | .tuple ts, p => .tuple (classifyList ts p)
  | .array t len, p => .array (classify t p) len
  | .path n args, p =>
      if n = "PhantomData" then classifyMarker args p
      else
        match registryKind n with
        | some (.singleValue k) =>
            match args with
            | [a] => .container (.singleValue k) [classify a p]
            | _ => .opaqueS
        | some (.ordered k) =>
            match args with
            | [a] => .container (.ordered k) [classify a p]
            | _ => .opaqueS
        | some (.keyed k) =>
            match args with
            | [_, v] => .container (.keyed k) [classify v p]
            | _ => .opaqueS
        | none => .opaqueS

/-- Componentwise classification of a list of types (tuple components). -/
def classifyList : List RType → String → List TypeShape
  | [], _ => []
  | t :: ts, p => classify t p :: classifyList ts p

end

mutual

/-- Syntactic depth of a declared type expression. -/
def RType.depth : RType → Nat
  | .ident _ => 1
  | .paren t => t.depth + 1
  | .tuple ts => depthList ts + 1
  | .array t _ => t.depth + 1
  | .path _ args => depthList args + 1

/-- Maximal syntactic depth over a list of type expressions. -/
def depthList : List RType → Nat
  | [] => 0
  | t :: ts => max t.depth (depthList ts)

end

mutual

/-- Fuel-instrumented version of the Shape Analyzer: consumes one unit of
fuel per recursion step into a type expression and gives up (`none`) when
the fuel runs out. Used to witness that classification terminates within
fuel bounded by the type's syntactic depth. -/
def classifyFuel : Nat → RType → String → Option TypeShape
  | 0, _, _ => none
  | n + 1, t, p =>
      match t with
      | .ident m => some (if m = p then .direct else .opaqueS)
      | .paren t => classifyFuel n t p
      | .tuple ts => (classifyFuelList n ts p).map .tuple
      | .array t len => (classifyFuel n t p).map (fun s => .array s len)
      | .path m args =>
          if m = "PhantomData" then some (classifyMarker args p)
          else
            match registryKind m with
            | some (.singleValue k) =>
                match args with
                | [a] =>
                    (classifyFuel n a p).map
                      (fun s => .container (.singleValue k) [s])
                | _ => some .opaqueS
            | some (.ordered k) =>
                match args with
                | [a] =>
                    (classifyFuel n a p).map
                      (fun s => .container (.ordered k) [s])
                | _ => some .opaqueS
            | some (.keyed k) =>
                match args with
                | [_, v] =>
                    (classifyFuel n v p).map
                      (fun s => .container (.keyed k) [s])
                | _ => some .opaqueS
            | none => some .opaqueS
termination_by n t _ => (n, sizeOf t)

/-- Fuel-instrumented componentwise classification. -/
def classifyFuelList : Nat → List RType → String → Option (List TypeShape)
  | _, [], _ => some []
  | n, t :: ts, p =>
      match classifyFuel n t p, classifyFuelList n ts p with
      | some s, some ss => some (s :: ss)
      | _, _ => none
termination_by n ts _ => (n, sizeOf ts)

end

/-! ## Runtime values and the Expression Synthesizer's semantics
(`generate_fmap_body` module, modelled from the spec) -/

/-- A runtime value of a field, over an element type `α` for the target
parameter's occurrences: an element of the parameter type, an opaque
primitive payload, a tuple, a fixed-size array, an optional value, a box,
an ordered collection, a keyed collection (keys are opaque `Nat` payloads,
never transformed), or the zero-sized marker. -/
inductive Value (α : Type) where
  | elem (a : α)
  | prim (n : Nat)
  | tup (vs : List (Value α))
  | arr (vs : List (Value α))
  | optV (v? : Option (Value α))
  | boxV (v : Value α)
  | listV (vs : List (Value α))
  | mapV (es : List (Nat × Value α))
  | markerV

mutual

/-- Pass a value through unchanged across the element-type change. On
values that contain no element of the parameter type (the only ones an
`Opaque`-classified field can hold) this is the identity; stray elements
are collapsed to a junk payload. -/
def passThru : Value α → Value β
  | .elem _ => .prim 0
  | .prim n => .prim n
  | .tup vs => .tup (passThruList vs)
  | .arr vs => .arr (passThruList vs)
  | .optV none => .optV none
  | .optV (some v) => .optV (some (passThru v))
  | .boxV v => .boxV (passThru v)
  | .listV vs => .listV (passThruList vs)
  | .mapV es => .mapV (passThruEntries es)
  | .markerV => .markerV

/-- `passThru` over a list of values. -/
def passThruList : List (Value α) → List (Value β)
  | [] => []
  | v :: vs => passThru v :: passThruList vs

/-- `passThru` over keyed entries. -/
def passThruEntries : List (Nat × Value α) → List (Nat × Value β)
  | [] => []
  | (k, v) :: es => (k, passThru v) :: passThruEntries es

end

mutual

/-- Whether a value contains no element of the parameter type anywhere. -/
def noElem : Value α → Bool
  | .elem _ => false
  | .prim _ => true
  | .tup vs => noElemList vs
  | .arr vs => noElemList vs
  | .optV none => true
  | .optV (some v) => noElem v
  | .boxV v => noElem v
  | .listV vs => noElemList vs
  | .mapV es => noElemEntries es
  | .markerV => true

/-- `noElem` over a list of values. -/
def noElemList : List (Value α) → Bool
  | [] => true
  | v :: vs => noElem v && noElemList vs

/-- `noElem` over keyed entries. -/
def noElemEntries : List (Nat × Value α) → Bool
  | [] => true
  | (_, v) :: es => noElem v && noElemEntries es

end

/-- Well-formedness of a runtime value against a `TypeShape`: the value's
structure realizes the shape — `Direct` holds an element, `Opaque` holds
no element anywhere, tuples hold componentwise well-formed values of
matching arity, arrays have their declared length, each recognized
container holds the matching runtime container with well-formed contents,
and the marker is the marker. -/
inductive WF : TypeShape → Value α → Prop where
  | direct (a : α) : WF .direct (.elem a)
  | opaq (v : Value α) : noElem v = true → WF .opaqueS v
  | tup (ss : List TypeShape) (vs : List (Value α)) :
      ss.length = vs.length →
      (∀ pr ∈ ss.zip vs, WF pr.1 pr.2) →
      WF (.tuple ss) (.tup vs)
  | arr (s : TypeShape) (n : Nat) (vs : List (Value α)) :
      vs.length = n →
      (∀ v ∈ vs, WF s v) →
      WF (.array s n) (.arr vs)
  | optNone (s : TypeShape) :
      WF (.container (.singleValue "Option") [s]) (.optV none)
  | optSome (s : TypeShape) (w : Value α) :
      WF s w → WF (.container (.singleValue "Option") [s]) (.optV (some w))
  | box (s : TypeShape) (w : Value α) :
      WF s w → WF (.container (.singleValue "Box") [s]) (.boxV w)
  | list (k : String) (s : TypeShape) (vs : List (Value α)) :
      (∀ v ∈ vs, WF s v) →
      WF (.container (.ordered k) [s]) (.listV vs)
  | map (k : String) (s : TypeShape) (es : List (Nat × Value α)) :
      (∀ e ∈ es, WF s e.2) →
      WF (.container (.keyed k) [s]) (.mapV es)
  | marker : WF .marker .markerV

mutual

/-- Modelled from the spec: the semantics of the total transform
synthesized by the Expression Synthesizer, per shape — apply the function
at `Direct`, pass `Opaque` values through unchanged, rebuild tuples and
arrays componentwise in order, apply each container's own
structure-preserving map (keys of keyed containers untouched), and rebuild
the marker with no value access. -/
def fmapShape (f : α → β) : TypeShape → Value α → Value β
  | .direct, .elem a => .elem (f a)
  | .direct, _ => .prim 0
  | .opaqueS, v => passThru v
  | .tuple ss, .tup vs => .tup (fmapTup f ss vs)
  | .tuple _, _ => .prim 0
  | .array s _, .arr vs => .arr (fmapRep f s vs)
  | .array _ _, _ => .prim 0
  | .container _ [s], .optV none => .optV none
  | .container _ [s], .optV (some w) => .optV (some (fmapShape f s w))
  | .container _ [s], .boxV w => .boxV (fmapShape f s w)
  | .container _ [s], .listV vs => .listV (fmapRep f s vs)
  | .container _ [s], .mapV es => .mapV (fmapEntries f s es)
  | .container _ _, _ => .prim 0
  | .marker, _ => .markerV
termination_by s v => (sizeOf s, sizeOf v)

/-- Total transform of tuple components, left to right. -/
def fmapTup (f : α → β) : List TypeShape → List (Value α) → List (Value β)
  | [], _ => []
  | _ :: _, [] => []
  | s :: ss, v :: vs => fmapShape f s v :: fmapTup f ss vs
termination_by ss vs => (sizeOf ss, sizeOf vs)

/-- Total transform of a homogeneous collection's elements, in order. -/
def fmapRep (f : α → β) : TypeShape → List (Value α) → List (Value β)
  | _, [] => []
  | s, v :: vs => fmapShape f s v :: fmapRep f s vs
termination_by s vs => (sizeOf s, sizeOf vs)

/-- Total transform of a keyed collection's values, keys untouched. -/
def fmapEntries (f : α → β) : TypeShape → List (Nat × Value α) →
    List (Nat × Value β)
  | _, [] => []
  | s, (k, v) :: es => (k, fmapShape f s v) :: fmapEntries f s es
termination_by s es => (sizeOf s, sizeOf es)

end

mutual

/-- Modelled from the spec: the semantics of the fallible transform
synthesized by the Expression Synthesizer, per shape — apply the function
at `Direct` and propagate its error immediately, wrap `Opaque`
pass-throughs and markers as successes, and traverse tuples, arrays and
containers left to right, short-circuiting on the first failure; the
overall result is a success only if every occurrence succeeds. -/
def tryFmapShape (f : α → Except ε β) : TypeShape → Value α →
    Except ε (Value β)
  | .direct, .elem a =>
      match f a with
      | .error e => .error e
      | .ok b => .ok (.elem b)
  | .direct, _ => .ok (.prim 0)
  | .opaqueS, v => .ok (passThru v)
  | .tuple ss, .tup vs =>
      match tryTup f ss vs with
      | .error e => .error e
      | .ok ws => .ok (.tup ws)
  | .tuple _, _ => .ok (.prim 0)
  | .array s _, .arr vs =>
      match tryRep f s vs with
      | .error e => .error e
      | .ok ws => .ok (.arr ws)
  | .array _ _, _ => .ok (.prim 0)
  | .container _ [s], .optV none => .ok (.optV none)
  | .container _ [s], .optV (some w) =>
      match tryFmapShape f s w with
      | .error e => .error e
      | .ok w' => .ok (.optV (some w'))
  | .container _ [s], .boxV w =>
      match tryFmapShape f s w with
      | .error e => .error e
      | .ok w' => .ok (.boxV w')
  | .container _ [s], .listV vs =>
      match tryRep f s vs with
      | .error e => .error e
      | .ok ws => .ok (.listV ws)
  | .container _ [s], .mapV es =>
      match tryEntries f s es with
      | .error e => .error e
      | .ok ws => .ok (.mapV ws)
  | .container _ _, _ => .ok (.prim 0)
  | .marker, _ => .ok .markerV
termination_by s v => (sizeOf s, sizeOf v)

/-- Fallible transform of tuple components, short-circuiting. -/
def tryTup (f : α → Except ε β) : List TypeShape → List (Value α) →
    Except ε (List (Value β))
  | [], _ => .ok []
  | _ :: _, [] => .ok []
  | s :: ss, v :: vs =>
      match tryFmapShape f s v with
      | .error e => .error e
      | .ok w =>
          match tryTup f ss vs with
          | .error e => .error e
          | .ok ws => .ok (w :: ws)
termination_by ss vs => (sizeOf ss, sizeOf vs)

/-- Fallible transform of a homogeneous collection, short-circuiting. -/
def tryRep (f : α → Except ε β) : TypeShape → List (Value α) →
    Except ε (List (Value β))
  | _, [] => .ok []
  | s, v :: vs =>
      match tryFmapShape f s v with
      | .error e => .error e
      | .ok w =>
          match tryRep f s vs with
          | .error e => .error e
          | .ok ws => .ok (w :: ws)
termination_by s vs => (sizeOf s, sizeOf vs)

/-- Fallible transform of a keyed collection's values, short-circuiting. -/
def tryEntries (f : α → Except ε β) : TypeShape → List (Nat × Value α) →
    Except ε (List (Nat × Value β))
  | _, [] => .ok []
  | s, (k, v) :: es =>
      match tryFmapShape f s v with
      | .error e => .error e
      | .ok w =>
          match tryEntries f s es with
          | .error e => .error e
          | .ok ws => .ok ((k, w) :: ws)
termination_by s es => (sizeOf s, sizeOf es)

end

mutual

/-- The occurrences of the target parameter's elements inside a value,
in exactly the evaluation order of the synthesized transforms (field /
component order, left to right, depth first). -/
def occurrences : TypeShape → Value α → List α
  | .direct, .elem a => [a]
  | .direct, _ => []
  | .opaqueS, _ => []
  | .tuple ss, .tup vs => occTup ss vs
  | .tuple _, _ => []
  | .array s _, .arr vs => occRep s vs
  | .array _ _, _ => []
  | .container _ [s], .optV none => []
  | .container _ [s], .optV (some w) => occurrences s w
  | .container _ [s], .boxV w => occurrences s w
  | .container _ [s], .listV vs => occRep s vs
  | .container _ [s], .mapV es => occEntries s es
  | .container _ _, _ => []
  | .marker, _ => []
termination_by s v => (sizeOf s, sizeOf v)

/-- Occurrences inside tuple components, in order. -/
def occTup : List TypeShape → List (Value α) → List α
  | [], _ => []
  | _ :: _, [] => []
  | s :: ss, v :: vs => occurrences s v ++ occTup ss vs
termination_by ss vs => (sizeOf ss, sizeOf vs)

/-- Occurrences inside a homogeneous collection, in order. -/
def occRep : TypeShape → List (Value α) → List α
  | _, [] => []
  | s, v :: vs => occurrences s v ++ occRep s vs
termination_by s vs => (sizeOf s, sizeOf vs)

/-- Occurrences inside a keyed collection's values, in order. -/
def occEntries : TypeShape → List (Nat × Value α) → List α
  | _, [] => []
  | s, (_, v) :: es => occurrences s v ++ occEntries s es
termination_by s es => (sizeOf s, sizeOf es)

end

/-- The first error produced by `f` on a list of elements scanned left to
right, if any. -/
def firstError (f : α → Except ε β) : List α → Option ε
  | [] => none
  | a :: l =>
      match f a with
      | .error e => some e
      | .ok _ => firstError f l

/-- Map the success value of an `Except`, propagating errors. -/
def exMap (r : Except ε ω) (k : ω → ω') : Except ε ω' :=
  match r with
  | .error e => .error e
  | .ok w => .ok (k w)

/-- Sequence two `Except` results left to right, short-circuiting on the
first error, combining successes with `k`. -/
def exSeq (r₁ : Except ε ω₁) (r₂ : Except ε ω₂) (k : ω₁ → ω₂ → ω₃) :
    Except ε ω₃ :=
  match r₁ with
  | .error e => .error e
  | .ok w =>
      match r₂ with
      | .error e => .error e
      | .ok ws => .ok (k w ws)

/-- The specification of a short-circuiting fallible traversal whose
occurrences, in evaluation order, are `occs`: the result is the first
error of `f` on `occs` when there is one, and some success otherwise. -/
def FirstErrSpec (f : α → Except ε β) (occs : List α)
    (r : Except ε ω) : Prop :=
  (∀ e, firstError f occs = some e → r = .error e) ∧
  (firstError f occs = none → ∃ w, r = .ok w)

/-! ## Whole-definition values and transforms -/

/-- The variants of a definition's body (a struct is its single implicit
variant). -/
def Data.variants : Data → List (List Field)
  | .structData fs => [fs]
  | .enumData vs => vs.map Prod.snd

/-- A runtime value of the subject definition: which variant it is (always
`0` for a struct) and its field values in declaration order. -/
structure DataValue (α : Type) where
  tag : Nat
  fields : List (Value α)

/-- The classified shapes of one variant's fields. -/
def variantShapes (d : Data) (p : String) (tag : Nat) : List TypeShape :=
  classifyList (((d.variants).getD tag []).map Field.ty) p

/-- The generated total transform on a whole value: reconstruct the same
variant, each field transformed according to its classified shape, in
declaration order. -/
def fmapData (d : Data) (p : String) (f : α → β) (v : DataValue α) :
    DataValue β :=
  ⟨v.tag, fmapTup f (variantShapes d p v.tag) v.fields⟩

/-- The generated fallible transform on a whole value: fields are
attempted in declaration order within the value's variant,
short-circuiting on the first failure; on success the same variant is
reconstructed. -/
def tryFmapData (d : Data) (p : String) (f : α → Except ε β)
    (v : DataValue α) : Except ε (DataValue β) :=
  match tryTup f (variantShapes d p v.tag) v.fields with
  | .error e => .error e
  | .ok ws => .ok ⟨v.tag, ws⟩

/-- Well-formedness of a whole value against a definition body: the tag
denotes an actual variant, the field values match the variant's fields in
number, and each field value realizes its field's classified shape. -/
def WFData (d : Data) (p : String) (v : DataValue α) : Prop :=
  v.tag < (d.variants).length ∧
  (variantShapes d p v.tag).length = v.fields.length ∧
  ∀ pr ∈ (variantShapes d p v.tag).zip v.fields, WF pr.1 pr.2

/-- All occurrences of the target parameter's elements in a whole value,
in field declaration order within the value's variant. -/
def dataOccurrences (d : Data) (p : String) (v : DataValue α) : List α :=
  occTup (variantShapes d p v.tag) v.fields

/-! ## Helper lemmas about the parameter lookup -/

/-- The identifier of a generic parameter, whatever its kind. -/
def GenericParam.name : GenericParam → String
  | .lifetime n => n
  | .typeP n _ => n
  | .constP n => n

/-- Whether a generic parameter is a *type* parameter with the given
identifier (the only kind `generate_impl`'s `find_map` can select). -/
def isTypeNamed (p : String) : GenericParam → Bool
  | .typeP n _ => n == p
  | _ => false

/-- Whether an invocation of `generate_impl` with this parameter and this
name suffix is requested by the resolved attribute: a single request
passes the parameter with no suffix, a multi-parameter request passes each
listed pair with its suffix. -/
def requestedBy : Attribute → String → Option String → Prop
  | .single q, p, sfx => q = p ∧ sfx = none
  | .many prs, p, sfx => ∃ s, sfx = some s ∧ (p, s) ∈ prs

/-- Look up a generated method by name (Rust method resolution inside the
generated impl block; all generated names are distinct). -/
def findMethod (ms : List Method) (name : String) : Option Method :=
  ms.find? (fun m => m.name == name)

/-- Evaluate a generated total-transform method under an arbitrary
denotation of synthesized bodies: a synthesized body denotes itself, a
delegation denotes its (non-delegating) target's body, a fallible body is
not a total transform. -/
def resolveTotal (ms : List Method) (denote : FmapBody → γ)
    (name : String) : Option γ :=
  match findMethod ms name with
  | some m =>
      match m.body with
      | .synthesized b => some (denote b)
      | .okWrapped _ => none
      | .delegate tgt =>
          match findMethod ms tgt with
          | some m' =>
              match m'.body with
              | .synthesized b => some (denote b)
              | _ => none
          | none => none
  | none => none

/-- Evaluate a generated fallible-transform method under an arbitrary
denotation of synthesized bodies (the fallible bodies are the
`Ok(...)`-wrapped ones). -/
def resolveFallible (ms : List Method) (denote : FmapBody → γ)
    (name : String) : Option γ :=
  match findMethod ms name with
  | some m =>
      match m.body with
      | .okWrapped b => some (denote b)
      | .synthesized _ => none
      | .delegate tgt =>
          match findMethod ms tgt with
          | some m' =>
              match m'.body with
              | .okWrapped b => some (denote b)
              | _ => none
          | none => none
  | none => none

/-- A sample subject definition with one unbounded type parameter
(the `struct_simple` test). -/
def sampleStructInput : DeriveInput :=
  ⟨"Foo", [.typeP "A" []],
    .structData [⟨"field_1", .ident "A"⟩, ⟨"field_2", .ident "u32"⟩]⟩

/-- A sample subject definition whose target parameter carries a trait
bound. -/
def sampleBoundedInput : DeriveInput :=
  ⟨"Foo", [.typeP "A" ["Clone"]],
    .structData [⟨"field_1", .ident "A"⟩]⟩

/-- A sample subject definition with two type parameters. -/
def samplePairInput : DeriveInput :=
  ⟨"Pair", [.typeP "A" [], .typeP "B" []],
    .structData [⟨"fst", .ident "A"⟩, ⟨"snd", .ident "B"⟩]⟩

/-- A sample definition body with a single `Vec<A>` field. -/
def sampleVecData : Data := .structData [⟨"field_1", .path "Vec" [.ident "A"]⟩]

/-- A sample runtime value of `sampleVecData`. -/
def sampleVecValue : DataValue Nat := ⟨0, [.listV [.elem 1, .elem 2, .elem 3]]⟩

/-- A sample fallible element function failing on `2`. -/
def sampleTryF : Nat → Except String Nat :=
  fun a => if a = 2 then .error "boom" else .ok a

/-- A sample fallible element function agreeing with `sampleTryF` up to
the failure but differing afterwards (on `3`). -/
def sampleTryG : Nat → Except String Nat :=
  fun a => if a = 3 then .ok 99 else if a = 2 then .error "boom" else .ok a

mutual

/-- Modelled from the spec: the syntactic occurs-check of step 7 of the
Shape Analyzer — whether the target parameter identifier literally occurs
anywhere in the type expression's syntax tree. -/
def occursIn : RType → String → Bool
  | .ident n, p => n == p
  | .paren t, p => occursIn t p
  | .tuple ts, p => occursInList ts p
  | .array t _, p => occursIn t p
  | .path n args, p => n == p || occursInList args p

/-- `occursIn` over a list of type expressions. -/
def occursInList : List RType → String → Bool
  | [], _ => false
  | t :: ts, p => occursIn t p || occursInList ts p

end

mutual

/-- Whether a classified shape is free of the target parameter: it
contains no `Direct` and no `Marker` leaf, so the synthesized transform
rebuilds the whole value without consulting the element function. -/
def shapeParamFree : TypeShape → Bool
  | .direct => false
  | .opaqueS => true
  | .tuple ss => shapeParamFreeList ss
  | .array s _ => shapeParamFree s
  | .container _ ss => shapeParamFreeList ss
  | .marker => false

/-- `shapeParamFree` over a list of shapes. -/
def shapeParamFreeList : List TypeShape → Bool
  | [] => true
  | s :: ss => shapeParamFree s && shapeParamFreeList ss

end

/-- A sample definition body with one field of the target parameter type
and one unrelated structured parameter-free field (a tuple of numerics). -/
def sampleMixedData : Data :=
  .structData [⟨"field_1", .ident "A"⟩,
    ⟨"field_2", .tuple [.ident "u32", .ident "u8"]⟩]

/-- A sample runtime value of `sampleMixedData`. -/
def sampleMixedValue : DataValue Nat :=
  ⟨0, [.elem 5, .tup [.prim 7, .prim 8]]⟩

theorem findFunctorParam_eq_none (ps : List GenericParam) (p : String)
    (h : ∀ q ∈ ps, isTypeNamed p q = false) :
    findFunctorParam ps p = none := by
  induction ps with
  | nil => rfl
  | cons q rest ih =>
    have hrest : findFunctorParam rest p = none :=
      ih (fun q hq => h q (List.mem_cons_of_mem _ hq))
    cases q with
    | lifetime l => simp [findFunctorParam, hrest]
    | constP c => simp [findFunctorParam, hrest]
    | typeP n bs =>
      have hq := h (.typeP n bs) (List.mem_cons_self _ _)
      simp [isTypeNamed] at hq
      simp [findFunctorParam, hq, hrest]

theorem findFunctorParam_some (ps : List GenericParam) (p : String)
    (idx : Nat) (bs : List String)
    (h : findFunctorParam ps p = some (idx, bs)) :
    ps[idx]? = some (.typeP p bs) := by
  induction ps generalizing idx with
  | nil => simp [findFunctorParam] at h
  | cons q rest ih =>
    cases q with
    | lifetime l =>
      simp only [findFunctorParam, Option.map_eq_some'] at h
      obtain ⟨⟨i, b⟩, hfind, heq⟩ := h
      cases heq
      simpa using ih i hfind
    | constP c =>
      simp only [findFunctorParam, Option.map_eq_some'] at h
      obtain ⟨⟨i, b⟩, hfind, heq⟩ := h
      cases heq
      simpa using ih i hfind
    | typeP n bs' =>
      by_cases hn : n = p
      · subst hn
        simp only [findFunctorParam, if_pos rfl] at h
        cases h
        simp
      · simp only [findFunctorParam, if_neg hn, Option.map_eq_some'] at h
        obtain ⟨⟨i, b⟩, hfind, heq⟩ := h
        cases heq
        simpa using ih i hfind

/-- Unfolding equation of `generate_impl`, with the `let`s reduced. -/
theorem generate_impl_def (input : DeriveInput) (defName p : String)
    (sfx : Option String) :
    generate_impl input defName p sfx =
      match findFunctorParam input.genParams p with
      | none =>
          .error ⟨"The generic parameter `" ++ p ++
            "` could not be found in the definition of `" ++ defName ++ "`."⟩
      | some (idx, bounds) =>
          if bounds.isEmpty && sfx.isNone then
            .ok (.traitImpl input.genParams p defName
              (input.genParams.map paramToArg)
              ((input.genParams.map paramToArg).set idx (.typeArg "__B"))
              ⟨input.data, defName, p, false⟩ ⟨input.data, defName, p, true⟩)
          else
            .ok (.inherentImpl input.genParams defName
              (input.genParams.map paramToArg)
              ((input.genParams.map paramToArg).set idx (.typeArg "__B"))
              (fourMethods bounds (suffixString sfx)
                ⟨input.data, defName, p, false⟩
                ⟨input.data, defName, p, true⟩)) := rfl

theorem findFunctorParam_some_lt (ps : List GenericParam) (p : String)
    (idx : Nat) (bs : List String)
    (h : findFunctorParam ps p = some (idx, bs)) : idx < ps.length := by
  have := findFunctorParam_some ps p idx bs h
  exact (List.getElem?_eq_some.mp this).1

/-! ## C3 and C10: configuration errors -/

/-- **C3.** If the named target parameter does not occur among the subject
type's declared generic parameters, generation aborts immediately with a
compile-time diagnostic that names both the missing parameter and the
subject type; the result is the error alone, so no partial output is
emitted. -/
theorem generation_aborts_when_param_missing
    (input : DeriveInput) (defName functorParam : String)
    (sfx : Option String)
    (h : ∀ q ∈ input.genParams, q.name ≠ functorParam) :
    generate_impl input defName functorParam sfx =
      .error ⟨"The generic parameter `" ++ functorParam ++
        "` could not be found in the definition of `" ++ defName ++ "`."⟩ := by
  have hnone : findFunctorParam input.genParams functorParam = none := by
    apply findFunctorParam_eq_none
    intro q hq
    cases q with
    | typeP n bs =>
      have := h _ hq
      simp [GenericParam.name] at this
      simp [isTypeNamed, this]
    | lifetime l => simp [isTypeNamed]
    | constP c => simp [isTypeNamed]
  simp [generate_impl, hnone]

theorem generation_aborts_when_param_missing_witness :
    (∀ q ∈ [GenericParam.typeP "A" []], q.name ≠ "B") ∧
    generate_impl ⟨"Foo", [.typeP "A" []], .structData []⟩ "Foo" "B" none =
      .error ⟨"The generic parameter `B` could not be found in the definition of `Foo`."⟩ :=
  ⟨by decide, generation_aborts_when_param_missing _ _ _ _ (by decide)⟩

/-- **C10.** Only declared *type* parameters can be selected as the
transformation target: if the requested identifier occurs among the
generic parameters only as a lifetime or const parameter, generation
aborts with the same "could not be found" diagnostic as if the identifier
were absent entirely. -/
theorem lifetime_const_params_never_selected
    (input : DeriveInput) (defName p : String) (sfx : Option String)
    (hpresent : GenericParam.lifetime p ∈ input.genParams ∨
      GenericParam.constP p ∈ input.genParams)
    (hnotype : ∀ q ∈ input.genParams, isTypeNamed p q = false) :
    generate_impl input defName p sfx =
      .error ⟨"The generic parameter `" ++ p ++
        "` could not be found in the definition of `" ++ defName ++ "`."⟩ := by
  have hnone : findFunctorParam input.genParams p = none :=
    findFunctorParam_eq_none _ _ hnotype
  simp [generate_impl, hnone]

theorem lifetime_const_params_never_selected_witness :
    (GenericParam.lifetime "a" ∈
        [GenericParam.lifetime "a", GenericParam.typeP "T" []] ∨
      GenericParam.constP "a" ∈
        [GenericParam.lifetime "a", GenericParam.typeP "T" []]) ∧
    (∀ q ∈ [GenericParam.lifetime "a", GenericParam.typeP "T" []],
      isTypeNamed "a" q = false) ∧
    generate_impl ⟨"Bar", [.lifetime "a", .typeP "T" []], .structData []⟩
        "Bar" "a" none =
      .error ⟨"The generic parameter `a` could not be found in the definition of `Bar`."⟩ :=
  ⟨by decide, by decide,
    lifetime_const_params_never_selected _ _ _ _ (by decide) (by decide)⟩

/-! ## C1: the declared output type -/

/-- **C1.** For every successful generation, the declared output type is
the subject definition applied to the source argument list with exactly
the target parameter's position replaced by the output element type
`__B`: every other generic argument — lifetimes, const parameters, and
the other type parameters — appears unchanged and in its original
position. -/
theorem output_type_replaces_only_target
    (input : DeriveInput) (defName p : String) (sfx : Option String)
    (out : Output)
    (h : generate_impl input defName p sfx = .ok out) :
    ∃ idx bounds,
      findFunctorParam input.genParams p = some (idx, bounds) ∧
      input.genParams[idx]? = some (.typeP p bounds) ∧
      out.sourceArgs = input.genParams.map paramToArg ∧
      out.targetArgs = out.sourceArgs.set idx (.typeArg "__B") ∧
      out.targetArgs[idx]? = some (.typeArg "__B") ∧
      (∀ j, j ≠ idx → out.targetArgs[j]? = out.sourceArgs[j]?) ∧
      (∀ j q, j ≠ idx → input.genParams[j]? = some q →
        out.targetArgs[j]? = some (paramToArg q)) := by
  rw [generate_impl_def] at h
  cases hfind : findFunctorParam input.genParams p with
  | none => rw [hfind] at h; exact absurd h (by simp)
  | some ib =>
    obtain ⟨idx, bounds⟩ := ib
    simp only [hfind] at h
    have hlt : idx < input.genParams.length :=
      findFunctorParam_some_lt _ _ _ _ hfind
    have hsrc : out.sourceArgs = input.genParams.map paramToArg := by
      by_cases hb : (bounds.isEmpty && sfx.isNone) = true
      · rw [if_pos hb] at h; cases h; rfl
      · rw [if_neg hb] at h; cases h; rfl
    have htgt : out.targetArgs =
        (input.genParams.map paramToArg).set idx (.typeArg "__B") := by
      by_cases hb : (bounds.isEmpty && sfx.isNone) = true
      · rw [if_pos hb] at h; cases h; rfl
      · rw [if_neg hb] at h; cases h; rfl
    refine ⟨idx, bounds, rfl, findFunctorParam_some _ _ _ _ hfind,
      hsrc, by rw [htgt, hsrc], ?_, ?_, ?_⟩
    · rw [htgt]
      rw [List.getElem?_set_self]
      simpa using hlt
    · intro j hj
      rw [htgt, hsrc]
      exact List.getElem?_set_ne (fun hh => hj hh.symm)
    · intro j q hj hq
      rw [htgt]
      rw [List.getElem?_set_ne (fun hh => hj hh.symm)]
      simp [List.getElem?_map, hq]

theorem output_type_replaces_only_target_witness :
    generate_impl
        ⟨"Baz", [.lifetime "a", .typeP "A" [], .constP "N"], .structData []⟩
        "Baz" "A" none =
      .ok (.traitImpl [.lifetime "a", .typeP "A" [], .constP "N"] "A" "Baz"
        [.lifetimeArg "a", .typeArg "A", .constArg "N"]
        [.lifetimeArg "a", .typeArg "__B", .constArg "N"]
        ⟨.structData [], "Baz", "A", false⟩
        ⟨.structData [], "Baz", "A", true⟩) ∧
    ∃ idx bounds,
      findFunctorParam
          [GenericParam.lifetime "a", .typeP "A" [], .constP "N"] "A" =
        some (idx, bounds) ∧
      ([GenericParam.lifetime "a", .typeP "A" [], .constP "N"] :
          List GenericParam)[idx]? = some (.typeP "A" bounds) ∧
      Output.sourceArgs (.traitImpl [.lifetime "a", .typeP "A" [], .constP "N"]
          "A" "Baz"
          [.lifetimeArg "a", .typeArg "A", .constArg "N"]
          [.lifetimeArg "a", .typeArg "__B", .constArg "N"]
          ⟨.structData [], "Baz", "A", false⟩
          ⟨.structData [], "Baz", "A", true⟩) =
        [GenericParam.lifetime "a", .typeP "A" [], .constP "N"].map paramToArg ∧
      Output.targetArgs (.traitImpl [.lifetime "a", .typeP "A" [], .constP "N"]
          "A" "Baz"
          [.lifetimeArg "a", .typeArg "A", .constArg "N"]
          [.lifetimeArg "a", .typeArg "__B", .constArg "N"]
          ⟨.structData [], "Baz", "A", false⟩
          ⟨.structData [], "Baz", "A", true⟩) =
        (Output.sourceArgs (.traitImpl
          [.lifetime "a", .typeP "A" [], .constP "N"] "A" "Baz"
          [.lifetimeArg "a", .typeArg "A", .constArg "N"]
          [.lifetimeArg "a", .typeArg "__B", .constArg "N"]
          ⟨.structData [], "Baz", "A", false⟩
          ⟨.structData [], "Baz", "A", true⟩)).set idx (.typeArg "__B") :=
  ⟨rfl, by
    obtain ⟨idx, bounds, h1, h2, h3, h4, _, _, _⟩ :=
      output_type_replaces_only_target
        ⟨"Baz", [.lifetime "a", .typeP "A" [], .constP "N"], .structData []⟩
        "Baz" "A" none _ rfl
    exact ⟨idx, bounds, h1, h2, h3, h4⟩⟩

/-! ## Case analysis of a successful generation, and the `Many` loop -/

theorem generate_impl_ok_cases (input : DeriveInput) (defName p : String)
    (sfx : Option String) (out : Output)
    (h : generate_impl input defName p sfx = .ok out) :
    ∃ idx bounds, findFunctorParam input.genParams p = some (idx, bounds) ∧
      ((bounds = [] ∧ sfx = none ∧
        out = .traitImpl input.genParams p defName
          (input.genParams.map paramToArg)
          ((input.genParams.map paramToArg).set idx (.typeArg "__B"))
          ⟨input.data, defName, p, false⟩ ⟨input.data, defName, p, true⟩) ∨
       (¬(bounds = [] ∧ sfx = none) ∧
        out = .inherentImpl input.genParams defName
          (input.genParams.map paramToArg)
          ((input.genParams.map paramToArg).set idx (.typeArg "__B"))
          (fourMethods bounds (suffixString sfx)
            ⟨input.data, defName, p, false⟩
            ⟨input.data, defName, p, true⟩))) := by
  rw [generate_impl_def] at h
  cases hfind : findFunctorParam input.genParams p with
  | none => rw [hfind] at h; exact absurd h (by simp)
  | some ib =>
    obtain ⟨idx, bounds⟩ := ib
    simp only [hfind] at h
    refine ⟨idx, bounds, rfl, ?_⟩
    by_cases hb : (bounds.isEmpty && sfx.isNone) = true
    · rw [if_pos hb] at h
      cases h
      left
      simp only [Bool.and_eq_true, List.isEmpty_iff,
        Option.isNone_iff_eq_none] at hb
      exact ⟨hb.1, hb.2, rfl⟩
    · rw [if_neg hb] at h
      cases h
      right
      refine ⟨?_, rfl⟩
      rintro ⟨hb1, hb2⟩
      exact hb (by simp [hb1, hb2])

theorem manyImpls_ok_mem (input : DeriveInput) (prs : List (String × String))
    (outs : List Output) (h : manyImpls input prs = .ok outs)
    (out : Output) (hout : out ∈ outs) :
    ∃ p s, (p, s) ∈ prs ∧
      generate_impl input input.ident p (some s) = .ok out := by
  induction prs generalizing outs with
  | nil =>
    simp only [manyImpls] at h
    cases h
    simp at hout
  | cons pr rest ih =>
    obtain ⟨p, s⟩ := pr
    cases hg : generate_impl input input.ident p (some s) with
    | error d =>
      simp only [manyImpls, hg] at h
      exact Except.noConfusion h
    | ok o =>
      simp only [manyImpls, hg] at h
      cases hrest : manyImpls input rest with
      | error d => rw [hrest] at h; simp [Except.map] at h
      | ok os =>
        rw [hrest] at h
        simp only [Except.map] at h
        cases h
        rcases List.mem_cons.mp hout with rfl | hmem
        · exact ⟨p, s, List.mem_cons_self _ _, hg⟩
        · obtain ⟨p', s', hm, hg'⟩ := ih os hrest hmem
          exact ⟨p', s', List.mem_cons_of_mem _ hm, hg'⟩

theorem manyImpls_ok_pointwise (input : DeriveInput)
    (prs : List (String × String)) (outs : List Output)
    (h : manyImpls input prs = .ok outs) :
    outs.length = prs.length ∧
    ∀ (i : Nat) (p s : String), prs[i]? = some (p, s) →
      ∃ out, outs[i]? = some out ∧
        generate_impl input input.ident p (some s) = .ok out := by
  induction prs generalizing outs with
  | nil =>
    simp only [manyImpls] at h
    cases h
    refine ⟨rfl, ?_⟩
    intro i p s hps
    simp at hps
  | cons pr rest ih =>
    obtain ⟨p, s⟩ := pr
    cases hg : generate_impl input input.ident p (some s) with
    | error d =>
      simp only [manyImpls, hg] at h
      exact Except.noConfusion h
    | ok o =>
      simp only [manyImpls, hg] at h
      cases hrest : manyImpls input rest with
      | error d => rw [hrest] at h; simp [Except.map] at h
      | ok os =>
        rw [hrest] at h
        simp only [Except.map] at h
        cases h
        obtain ⟨hlen, hpt⟩ := ih os hrest
        refine ⟨by simp [hlen], ?_⟩
        intro i p' s' hps
        cases i with
        | zero =>
          simp only [List.getElem?_cons_zero, Option.some.injEq] at hps
          cases hps
          exact ⟨o, List.getElem?_cons_zero, hg⟩
        | succ j =>
          simp only [List.getElem?_cons_succ] at hps ⊢
          exact hpt j p' s' hps

/-! ## C2: trait impl versus the four free-standing operations -/

/-- **C2.** A successfully generated output is the two-method `Functor`
trait impl exactly when the request was for a single target parameter
carrying no trait bounds; in every other case the output is the inherent
impl with the four free-standing operations (owning-total,
reference-total, owning-fallible, reference-fallible), each suffixed as
requested and each carrying the parameter's original bounds on the output
element type `__B`. -/
theorem trait_impl_iff_single_unbounded
    (input : DeriveInput) (attr : Attribute) (outs : List Output)
    (h : deriveTokens input attr = .ok outs)
    (out : Output) (hout : out ∈ outs) :
    (out.isTraitImpl = true ↔
      ∃ p idx, attr = .single p ∧
        findFunctorParam input.genParams p = some (idx, [])) ∧
    (out.isTraitImpl = false →
      ∃ p sfx idx bounds,
        requestedBy attr p sfx ∧
        findFunctorParam input.genParams p = some (idx, bounds) ∧
        ¬(bounds = [] ∧ sfx = none) ∧
        out = .inherentImpl input.genParams input.ident
          (input.genParams.map paramToArg)
          ((input.genParams.map paramToArg).set idx (.typeArg "__B"))
          (fourMethods bounds (suffixString sfx)
            ⟨input.data, input.ident, p, false⟩
            ⟨input.data, input.ident, p, true⟩)) := by
  cases attr with
  | single q =>
    cases hg : generate_impl input input.ident q none with
    | error d =>
      simp only [deriveTokens, hg, Except.map] at h
      exact Except.noConfusion h
    | ok o =>
      simp only [deriveTokens, hg, Except.map] at h
      cases h
      have ho : out = o := by simpa using hout
      subst ho
      obtain ⟨idx, bounds, hfind, hcase⟩ := generate_impl_ok_cases _ _ _ _ _ hg
      rcases hcase with ⟨hb, _, hout_eq⟩ | ⟨hnb, hout_eq⟩
      · subst hout_eq
        subst hb
        refine ⟨⟨fun _ => ⟨q, idx, rfl, hfind⟩, fun _ => rfl⟩, ?_⟩
        intro hfalse
        simp [Output.isTraitImpl] at hfalse
      · subst hout_eq
        constructor
        · constructor
          · intro htrue; simp [Output.isTraitImpl] at htrue
          · rintro ⟨p', idx', heq, hfind'⟩
            cases heq
            rw [hfind] at hfind'
            cases hfind'
            exact absurd ⟨rfl, rfl⟩ hnb
        · intro _
          exact ⟨q, none, idx, bounds, ⟨rfl, rfl⟩, hfind, hnb, rfl⟩
  | many prs =>
    simp only [deriveTokens] at h
    obtain ⟨p, s, hm, hg⟩ := manyImpls_ok_mem _ _ _ h _ hout
    obtain ⟨idx, bounds, hfind, hcase⟩ := generate_impl_ok_cases _ _ _ _ _ hg
    rcases hcase with ⟨_, hnone, _⟩ | ⟨hnb, hout_eq⟩
    · exact absurd hnone (by simp)
    · subst hout_eq
      constructor
      · constructor
        · intro htrue; simp [Output.isTraitImpl] at htrue
        · rintro ⟨p', idx', heq, _⟩
          exact Attribute.noConfusion heq
      · intro _
        exact ⟨p, some s, idx, bounds, ⟨s, rfl, hm⟩, hfind, by simp, rfl⟩

theorem trait_impl_iff_single_unbounded_witness :
    (deriveTokens sampleStructInput (.single "A") =
      .ok [.traitImpl [.typeP "A" []] "A" "Foo" [.typeArg "A"]
        [.typeArg "__B"]
        ⟨sampleStructInput.data, "Foo", "A", false⟩
        ⟨sampleStructInput.data, "Foo", "A", true⟩]) ∧
    Output.isTraitImpl (.traitImpl [.typeP "A" []] "A" "Foo" [.typeArg "A"]
        [.typeArg "__B"]
        ⟨sampleStructInput.data, "Foo", "A", false⟩
        ⟨sampleStructInput.data, "Foo", "A", true⟩) = true :=
  ⟨rfl,
    (trait_impl_iff_single_unbounded sampleStructInput (.single "A") _ rfl _
      (List.mem_singleton.mpr rfl)).1.mpr ⟨"A", 0, rfl, rfl⟩⟩

/-! ## C7: one pipeline run per listed parameter, suffixed names -/

/-- **C7.** A multi-parameter request runs the whole generation pipeline
once per listed parameter, in the listed order (the i-th output is the
result of `generate_impl` on the i-th listed parameter), and every
generated operation name of that run carries that parameter's suffix:
`fmap_<suffix>`, `fmap_ref_<suffix>`, `try_fmap_<suffix>`,
`try_fmap_ref_<suffix>`. -/
theorem pipeline_once_per_listed_param
    (input : DeriveInput) (prs : List (String × String))
    (outs : List Output)
    (h : deriveTokens input (.many prs) = .ok outs) :
    outs.length = prs.length ∧
    ∀ i, i < prs.length →
      ∃ p s out, prs[i]? = some (p, s) ∧ outs[i]? = some out ∧
        generate_impl input input.ident p (some s) = .ok out ∧
        out.methods.map Method.name =
          ["fmap_" ++ s, "fmap_ref_" ++ s,
            "try_fmap_" ++ s, "try_fmap_ref_" ++ s] := by
  simp only [deriveTokens] at h
  obtain ⟨hlen, hpt⟩ := manyImpls_ok_pointwise _ _ _ h
  refine ⟨hlen, ?_⟩
  intro i hi
  rcases hpair : prs.get ⟨i, hi⟩ with ⟨p, s⟩
  have hps : prs[i]? = some (p, s) := by
    rw [List.getElem?_eq_getElem hi]
    exact congrArg some hpair
  obtain ⟨out, hio, hg⟩ := hpt i p s hps
  refine ⟨p, s, out, hps, hio, hg, ?_⟩
  obtain ⟨idx, bounds, hfind, hcase⟩ := generate_impl_ok_cases _ _ _ _ _ hg
  rcases hcase with ⟨_, hnone, _⟩ | ⟨_, hout_eq⟩
  · exact absurd hnone (by simp)
  · subst hout_eq
    have e1 : ("fmap_" : String) = "fmap" ++ "_" := rfl
    have e2 : ("fmap_ref_" : String) = "fmap_ref" ++ "_" := rfl
    have e3 : ("try_fmap_" : String) = "try_fmap" ++ "_" := rfl
    have e4 : ("try_fmap_ref_" : String) = "try_fmap_ref" ++ "_" := rfl
    simp only [Output.methods, fourMethods, suffixString, List.map]
    rw [e1, e2, e3, e4, String.append_assoc, String.append_assoc,
      String.append_assoc, String.append_assoc]

theorem pipeline_once_per_listed_param_witness :
    (deriveTokens samplePairInput (.many [("A", "a"), ("B", "b")]) =
      .ok [.inherentImpl [.typeP "A" [], .typeP "B" []] "Pair"
          [.typeArg "A", .typeArg "B"] [.typeArg "__B", .typeArg "B"]
          (fourMethods [] "_a"
            ⟨samplePairInput.data, "Pair", "A", false⟩
            ⟨samplePairInput.data, "Pair", "A", true⟩),
        .inherentImpl [.typeP "A" [], .typeP "B" []] "Pair"
          [.typeArg "A", .typeArg "B"] [.typeArg "A", .typeArg "__B"]
          (fourMethods [] "_b"
            ⟨samplePairInput.data, "Pair", "B", false⟩
            ⟨samplePairInput.data, "Pair", "B", true⟩)]) ∧
    ([(.inherentImpl [.typeP "A" [], .typeP "B" []] "Pair"
          [.typeArg "A", .typeArg "B"] [.typeArg "__B", .typeArg "B"]
          (fourMethods [] "_a"
            ⟨samplePairInput.data, "Pair", "A", false⟩
            ⟨samplePairInput.data, "Pair", "A", true⟩) : Output),
        .inherentImpl [.typeP "A" [], .typeP "B" []] "Pair"
          [.typeArg "A", .typeArg "B"] [.typeArg "A", .typeArg "__B"]
          (fourMethods [] "_b"
            ⟨samplePairInput.data, "Pair", "B", false⟩
            ⟨samplePairInput.data, "Pair", "B", true⟩)].length =
      ([("A", "a"), ("B", "b")] : List (String × String)).length) :=
  ⟨rfl,
    (pipeline_once_per_listed_param samplePairInput [("A", "a"), ("B", "b")]
      _ rfl).1⟩

/-! ## C9: the owning operations' delegation targets -/

/-- **C9.** The claim fails on the source: in the free-standing mode the
owning operations' bodies are delegation calls to the *literal, unsuffixed*
names `fmap_ref` / `try_fmap_ref` (`lib.rs` emits `self.fmap_ref(&__f)`
and `self.try_fmap_ref(&__f)` without interpolating the suffix), while the
reference methods are defined under the suffixed names. With no suffix the
delegation does reach the generated reference operation and both resolve
to the same synthesized body; but in suffixed mode (every multi-parameter
run) the target names no generated method, so `fmap_<sfx>` is not a
delegation to `fmap_ref_<sfx>` and the two are not extensionally equal —
the owning operation resolves to nothing at all. Evaluated here at the
parameter `A` of `struct Pair<A, B>` with suffix `a`. -/
theorem owning_delegation_target_unsuffixed_bug :
    generate_impl samplePairInput "Pair" "A" (some "a") =
      .ok (.inherentImpl [.typeP "A" [], .typeP "B" []] "Pair"
        [.typeArg "A", .typeArg "B"] [.typeArg "__B", .typeArg "B"]
        (fourMethods [] "_a"
          ⟨samplePairInput.data, "Pair", "A", false⟩
          ⟨samplePairInput.data, "Pair", "A", true⟩)) ∧
    (findMethod
        (fourMethods [] "_a"
          ⟨samplePairInput.data, "Pair", "A", false⟩
          ⟨samplePairInput.data, "Pair", "A", true⟩) "fmap_a").map
        Method.body = some (.delegate "fmap_ref") ∧
    (findMethod
        (fourMethods [] "_a"
          ⟨samplePairInput.data, "Pair", "A", false⟩
          ⟨samplePairInput.data, "Pair", "A", true⟩) "try_fmap_a").map
        Method.body = some (.delegate "try_fmap_ref") ∧
    findMethod
        (fourMethods [] "_a"
          ⟨samplePairInput.data, "Pair", "A", false⟩
          ⟨samplePairInput.data, "Pair", "A", true⟩) "fmap_ref" = none ∧
    findMethod
        (fourMethods [] "_a"
          ⟨samplePairInput.data, "Pair", "A", false⟩
          ⟨samplePairInput.data, "Pair", "A", true⟩) "try_fmap_ref" =
      none ∧
    resolveTotal
        (fourMethods [] "_a"
          ⟨samplePairInput.data, "Pair", "A", false⟩
          ⟨samplePairInput.data, "Pair", "A", true⟩)
        (fun b => b) "fmap_a" = none ∧
    resolveTotal
        (fourMethods [] "_a"
          ⟨samplePairInput.data, "Pair", "A", false⟩
          ⟨samplePairInput.data, "Pair", "A", true⟩)
        (fun b => b) "fmap_ref_a" =
      some ⟨samplePairInput.data, "Pair", "A", false⟩ ∧
    resolveFallible
        (fourMethods [] "_a"
          ⟨samplePairInput.data, "Pair", "A", false⟩
          ⟨samplePairInput.data, "Pair", "A", true⟩)
        (fun b => b) "try_fmap_a" = none ∧
    resolveFallible
        (fourMethods [] "_a"
          ⟨samplePairInput.data, "Pair", "A", false⟩
          ⟨samplePairInput.data, "Pair", "A", true⟩)
        (fun b => b) "try_fmap_ref_a" =
      some ⟨samplePairInput.data, "Pair", "A", true⟩ ∧
    resolveTotal
        (fourMethods ["Clone"] ""
          ⟨sampleBoundedInput.data, "Foo", "A", false⟩
          ⟨sampleBoundedInput.data, "Foo", "A", true⟩)
        (fun b => b) "fmap" =
      resolveTotal
        (fourMethods ["Clone"] ""
          ⟨sampleBoundedInput.data, "Foo", "A", false⟩
          ⟨sampleBoundedInput.data, "Foo", "A", true⟩)
        (fun b => b) "fmap_ref" ∧
    resolveFallible
        (fourMethods ["Clone"] ""
          ⟨sampleBoundedInput.data, "Foo", "A", false⟩
          ⟨sampleBoundedInput.data, "Foo", "A", true⟩)
        (fun b => b) "try_fmap" =
      resolveFallible
        (fourMethods ["Clone"] ""
          ⟨sampleBoundedInput.data, "Foo", "A", false⟩
          ⟨sampleBoundedInput.data, "Foo", "A", true⟩)
        (fun b => b) "try_fmap_ref" :=
  ⟨rfl, rfl, rfl, rfl, rfl, rfl, rfl, rfl, rfl, rfl, rfl⟩

/-! ## The first-error specification of the fallible traversal -/

theorem firstError_append (f : α → Except ε β) (l₁ l₂ : List α) :
    firstError f (l₁ ++ l₂) =
      match firstError f l₁ with
      | some e => some e
      | none => firstError f l₂ := by
  induction l₁ with
  | nil => simp [firstError]
  | cons a l ih =>
    simp only [List.cons_append, firstError]
    cases f a <;> simp [ih]

theorem firstError_congr (f g : α → Except ε β) (l : List α)
    (h : ∀ a ∈ l, f a = g a) :
    firstError f l = firstError g l := by
  induction l with
  | nil => rfl
  | cons a l ih =>
    simp only [firstError]
    rw [h a (List.mem_cons_self _ _)]
    cases g a with
    | error e => rfl
    | ok b => exact ih (fun x hx => h x (List.mem_cons_of_mem _ hx))

theorem firstError_prefix_some (f : α → Except ε β) (l : List α) (n : Nat)
    (e : ε) (h : firstError f (l.take n) = some e) :
    firstError f l = some e := by
  conv_lhs => rw [← List.take_append_drop n l]
  rw [firstError_append, h]

theorem firstErrSpec_nil (f : α → Except ε β) (w : ω) :
    FirstErrSpec f [] (.ok w) := by
  constructor
  · intro e he
    simp [firstError] at he
  · intro _
    exact ⟨w, rfl⟩

theorem firstErrSpec_single (f : α → Except ε β) (a : α) (k : β → ω) :
    FirstErrSpec f [a] (exMap (f a) k) := by
  constructor
  · intro e he
    simp only [firstError] at he
    cases hfa : f a with
    | error e' =>
      rw [hfa] at he
      cases he
      simp [exMap, hfa]
    | ok b =>
      rw [hfa] at he
      simp [firstError] at he
  · intro hn
    simp only [firstError] at hn
    cases hfa : f a with
    | error e' => rw [hfa] at hn; cases hn
    | ok b => exact ⟨k b, by simp [exMap, hfa]⟩

theorem firstErrSpec_map {f : α → Except ε β} {l : List α}
    {r : Except ε ω} (k : ω → ω') (h : FirstErrSpec f l r) :
    FirstErrSpec f l (exMap r k) := by
  obtain ⟨h1, h2⟩ := h
  constructor
  · intro e he
    rw [h1 e he]
    rfl
  · intro hn
    obtain ⟨w, hw⟩ := h2 hn
    exact ⟨k w, by rw [hw]; rfl⟩

theorem firstErrSpec_seq {f : α → Except ε β} {l₁ l₂ : List α}
    {r₁ : Except ε ω₁} {r₂ : Except ε ω₂} (k : ω₁ → ω₂ → ω₃)
    (h₁ : FirstErrSpec f l₁ r₁) (h₂ : FirstErrSpec f l₂ r₂) :
    FirstErrSpec f (l₁ ++ l₂) (exSeq r₁ r₂ k) := by
  obtain ⟨h1e, h1k⟩ := h₁
  obtain ⟨h2e, h2k⟩ := h₂
  constructor
  · intro e he
    rw [firstError_append] at he
    cases hfe : firstError f l₁ with
    | some e₁ =>
      simp only [hfe, Option.some.injEq] at he
      subst he
      rw [h1e e₁ hfe]
      rfl
    | none =>
      simp only [hfe] at he
      obtain ⟨w, hw⟩ := h1k hfe
      rw [hw, h2e e he]
      rfl
  · intro hn
    rw [firstError_append] at hn
    cases hfe : firstError f l₁ with
    | some e₁ => simp [hfe] at hn
    | none =>
      simp only [hfe] at hn
      obtain ⟨w, hw⟩ := h1k hfe
      obtain ⟨ws, hws⟩ := h2k hn
      exact ⟨k w ws, by rw [hw, hws]; rfl⟩

/-! ## Computation equations of the fallible traversal -/

theorem tryTup_cons (f : α → Except ε β) (s : TypeShape)
    (ss : List TypeShape) (v : Value α) (vs : List (Value α)) :
    tryTup f (s :: ss) (v :: vs) =
      exSeq (tryFmapShape f s v) (tryTup f ss vs)
        (fun w ws => w :: ws) := by
  cases h1 : tryFmapShape f s v <;>
    cases h2 : tryTup f ss vs <;>
      simp [tryTup, exSeq, h1, h2]

theorem tryRep_cons (f : α → Except ε β) (s : TypeShape)
    (v : Value α) (vs : List (Value α)) :
    tryRep f s (v :: vs) =
      exSeq (tryFmapShape f s v) (tryRep f s vs)
        (fun w ws => w :: ws) := by
  cases h1 : tryFmapShape f s v <;>
    cases h2 : tryRep f s vs <;>
      simp [tryRep, exSeq, h1, h2]

theorem tryEntries_cons (f : α → Except ε β) (s : TypeShape)
    (kk : Nat) (v : Value α) (es : List (Nat × Value α)) :
    tryEntries f s ((kk, v) :: es) =
      exSeq (tryFmapShape f s v) (tryEntries f s es)
        (fun w ws => (kk, w) :: ws) := by
  cases h1 : tryFmapShape f s v <;>
    cases h2 : tryEntries f s es <;>
      simp [tryEntries, exSeq, h1, h2]

theorem tryFmapShape_direct (f : α → Except ε β) (a : α) :
    tryFmapShape f .direct (.elem a) = exMap (f a) Value.elem := by
  cases hfa : f a <;> simp [tryFmapShape, exMap, hfa]

theorem tryFmapShape_tup (f : α → Except ε β) (ss : List TypeShape)
    (vs : List (Value α)) :
    tryFmapShape f (.tuple ss) (.tup vs) =
      exMap (tryTup f ss vs) Value.tup := by
  cases h : tryTup f ss vs <;> simp [tryFmapShape, exMap, h]

theorem tryFmapShape_arr (f : α → Except ε β) (s : TypeShape) (n : Nat)
    (vs : List (Value α)) :
    tryFmapShape f (.array s n) (.arr vs) =
      exMap (tryRep f s vs) Value.arr := by
  cases h : tryRep f s vs <;> simp [tryFmapShape, exMap, h]

theorem tryFmapShape_optSome (f : α → Except ε β) (kind : ContainerKind)
    (s : TypeShape) (w : Value α) :
    tryFmapShape f (.container kind [s]) (.optV (some w)) =
      exMap (tryFmapShape f s w) (fun w' => .optV (some w')) := by
  cases h : tryFmapShape f s w <;> simp [tryFmapShape, exMap, h]

theorem tryFmapShape_box (f : α → Except ε β) (kind : ContainerKind)
    (s : TypeShape) (w : Value α) :
    tryFmapShape f (.container kind [s]) (.boxV w) =
      exMap (tryFmapShape f s w) Value.boxV := by
  cases h : tryFmapShape f s w <;> simp [tryFmapShape, exMap, h]

theorem tryFmapShape_listV (f : α → Except ε β) (kind : ContainerKind)
    (s : TypeShape) (vs : List (Value α)) :
    tryFmapShape f (.container kind [s]) (.listV vs) =
      exMap (tryRep f s vs) Value.listV := by
  cases h : tryRep f s vs <;> simp [tryFmapShape, exMap, h]

theorem tryFmapShape_mapV (f : α → Except ε β) (kind : ContainerKind)
    (s : TypeShape) (es : List (Nat × Value α)) :
    tryFmapShape f (.container kind [s]) (.mapV es) =
      exMap (tryEntries f s es) Value.mapV := by
  cases h : tryEntries f s es <;> simp [tryFmapShape, exMap, h]

/-! ## The traversal satisfies the first-error specification -/

theorem tryTup_spec (f : α → Except ε β) (ss : List TypeShape) :
    ∀ (vs : List (Value α)),
      (∀ pr ∈ ss.zip vs,
        FirstErrSpec f (occurrences pr.1 pr.2)
          (tryFmapShape f pr.1 pr.2)) →
      FirstErrSpec f (occTup ss vs) (tryTup f ss vs) := by
  induction ss with
  | nil =>
    intro vs _
    have h1 : occTup ([] : List TypeShape) vs = ([] : List α) := by
      simp [occTup]
    have h2 : tryTup f ([] : List TypeShape) vs =
        (.ok [] : Except ε (List (Value β))) := by simp [tryTup]
    rw [h1, h2]
    exact firstErrSpec_nil f []
  | cons s ss ih =>
    intro vs h
    cases vs with
    | nil =>
      have h1 : occTup (s :: ss) ([] : List (Value α)) = ([] : List α) := by
        simp [occTup]
      have h2 : tryTup f (s :: ss) ([] : List (Value α)) =
          (.ok [] : Except ε (List (Value β))) := by simp [tryTup]
      rw [h1, h2]
      exact firstErrSpec_nil f []
    | cons v vs =>
      have h1 : occTup (s :: ss) (v :: vs) =
          occurrences s v ++ occTup ss vs := by simp [occTup]
      rw [h1, tryTup_cons]
      exact firstErrSpec_seq _ (h (s, v) (by simp))
        (ih vs (fun pr hpr => h pr (by simp [hpr])))

theorem tryRep_spec (f : α → Except ε β) (s : TypeShape)
    (vs : List (Value α))
    (h : ∀ v ∈ vs,
      FirstErrSpec f (occurrences s v) (tryFmapShape f s v)) :
    FirstErrSpec f (occRep s vs) (tryRep f s vs) := by
  induction vs with
  | nil =>
    have h1 : occRep s ([] : List (Value α)) = ([] : List α) := by
      simp [occRep]
    have h2 : tryRep f s ([] : List (Value α)) =
        (.ok [] : Except ε (List (Value β))) := by simp [tryRep]
    rw [h1, h2]
    exact firstErrSpec_nil f []
  | cons v vs ih =>
    have h1 : occRep s (v :: vs) = occurrences s v ++ occRep s vs := by
      simp [occRep]
    rw [h1, tryRep_cons]
    exact firstErrSpec_seq _ (h v (by simp))
      (ih (fun w hw => h w (by simp [hw])))

theorem tryEntries_spec (f : α → Except ε β) (s : TypeShape)
    (es : List (Nat × Value α))
    (h : ∀ e ∈ es,
      FirstErrSpec f (occurrences s e.2) (tryFmapShape f s e.2)) :
    FirstErrSpec f (occEntries s es) (tryEntries f s es) := by
  induction es with
  | nil =>
    have h1 : occEntries s ([] : List (Nat × Value α)) = ([] : List α) := by
      simp [occEntries]
    have h2 : tryEntries f s ([] : List (Nat × Value α)) =
        (.ok [] : Except ε (List (Nat × Value β))) := by simp [tryEntries]
    rw [h1, h2]
    exact firstErrSpec_nil f []
  | cons e es ih =>
    obtain ⟨kk, v⟩ := e
    have h1 : occEntries s ((kk, v) :: es) =
        occurrences s v ++ occEntries s es := by simp [occEntries]
    rw [h1, tryEntries_cons]
    exact firstErrSpec_seq _ (h (kk, v) (by simp))
      (ih (fun w hw => h w (by simp [hw])))

theorem tryFmapShape_spec (f : α → Except ε β) (s : TypeShape)
    (v : Value α) (h : WF s v) :
    FirstErrSpec f (occurrences s v) (tryFmapShape f s v) := by
  induction h with
  | direct a =>
    have h1 : occurrences TypeShape.direct (Value.elem a) = [a] := by
      simp [occurrences]
    rw [h1, tryFmapShape_direct]
    exact firstErrSpec_single f a _
  | opaq v hne =>
    have h1 : occurrences TypeShape.opaqueS v = ([] : List α) := by
      simp [occurrences]
    have h2 : tryFmapShape f TypeShape.opaqueS v = .ok (passThru v) := by
      simp [tryFmapShape]
    rw [h1, h2]
    exact firstErrSpec_nil f _
  | tup ss vs hlen hzip ih =>
    have h1 : occurrences (TypeShape.tuple ss) (Value.tup vs) =
        occTup ss vs := by simp [occurrences]
    rw [h1, tryFmapShape_tup]
    exact firstErrSpec_map _ (tryTup_spec f ss vs ih)
  | arr s n vs hlen hall ih =>
    have h1 : occurrences (TypeShape.array s n) (Value.arr vs) =
        occRep s vs := by simp [occurrences]
    rw [h1, tryFmapShape_arr]
    exact firstErrSpec_map _ (tryRep_spec f s vs ih)
  | optNone s =>
    have h1 : occurrences
        (TypeShape.container (.singleValue "Option") [s])
        (Value.optV none) = ([] : List α) := by simp [occurrences]
    have h2 : tryFmapShape f
        (TypeShape.container (.singleValue "Option") [s])
        (Value.optV none) = .ok (.optV none) := by simp [tryFmapShape]
    rw [h1, h2]
    exact firstErrSpec_nil f _
  | optSome s w hw ih =>
    have h1 : occurrences
        (TypeShape.container (.singleValue "Option") [s])
        (Value.optV (some w)) = occurrences s w := by simp [occurrences]
    rw [h1, tryFmapShape_optSome]
    exact firstErrSpec_map _ ih
  | box s w hw ih =>
    have h1 : occurrences
        (TypeShape.container (.singleValue "Box") [s])
        (Value.boxV w) = occurrences s w := by simp [occurrences]
    rw [h1, tryFmapShape_box]
    exact firstErrSpec_map _ ih
  | list k s vs hall ih =>
    have h1 : occurrences (TypeShape.container (.ordered k) [s])
        (Value.listV vs) = occRep s vs := by simp [occurrences]
    rw [h1, tryFmapShape_listV]
    exact firstErrSpec_map _ (tryRep_spec f s vs ih)
  | map k s es hall ih =>
    have h1 : occurrences (TypeShape.container (.keyed k) [s])
        (Value.mapV es) = occEntries s es := by simp [occurrences]
    rw [h1, tryFmapShape_mapV]
    exact firstErrSpec_map _ (tryEntries_spec f s es ih)
  | marker =>
    have h1 : occurrences TypeShape.marker (Value.markerV : Value α) =
        ([] : List α) := by simp [occurrences]
    have h2 : tryFmapShape f TypeShape.marker (Value.markerV : Value α) =
        .ok .markerV := by simp [tryFmapShape]
    rw [h1, h2]
    exact firstErrSpec_nil f _

theorem tryFmapData_spec (d : Data) (p : String) (f : α → Except ε β)
    (v : DataValue α) (hwf : WFData d p v) :
    FirstErrSpec f (dataOccurrences d p v) (tryFmapData d p f v) := by
  obtain ⟨-, -, hzip⟩ := hwf
  have hbase := tryTup_spec f (variantShapes d p v.tag) v.fields
    (fun pr hpr => tryFmapShape_spec f pr.1 pr.2 (hzip pr hpr))
  have heq : tryFmapData d p f v =
      exMap (tryTup f (variantShapes d p v.tag) v.fields)
        (fun ws => ⟨v.tag, ws⟩) := by
    cases h : tryTup f (variantShapes d p v.tag) v.fields <;>
      simp [tryFmapData, exMap, h]
  rw [heq]
  exact firstErrSpec_map _ hbase

/-! ## C4: the fallible transform's first-error contract -/

/-- **C4.** For every well-formed value and fallible per-element function,
the generated fallible transform returns the first error encountered in
field declaration order (left to right, depth first, within the value's
variant): whenever the first failure of `f` occurs within the first `n`
occurrences, the transform returns exactly that error, and any function
`g` agreeing with `f` on those first `n` occurrences — arbitrary beyond
them — produces the same outcome, so occurrences past the first failure
are never evaluated; on failure only the error is returned, never a
partially reconstructed value. -/
theorem try_fmap_returns_first_error_short_circuit
    (d : Data) (p : String) (f g : α → Except ε β) (v : DataValue α)
    (n : Nat) (e : ε)
    (hwf : WFData d p v)
    (hagree : ∀ a ∈ (dataOccurrences d p v).take n, f a = g a)
    (herr : firstError f ((dataOccurrences d p v).take n) = some e) :
    tryFmapData d p f v = .error e ∧ tryFmapData d p g v = .error e := by
  have hf : firstError f (dataOccurrences d p v) = some e :=
    firstError_prefix_some f _ n e herr
  have hg' : firstError g ((dataOccurrences d p v).take n) = some e := by
    rw [← firstError_congr f g _ hagree]
    exact herr
  have hg : firstError g (dataOccurrences d p v) = some e :=
    firstError_prefix_some g _ n e hg'
  exact ⟨(tryFmapData_spec d p f v hwf).1 e hf,
    (tryFmapData_spec d p g v hwf).1 e hg⟩

theorem sampleVec_shapes : variantShapes sampleVecData "A" 0 =
    [.container (.ordered "Vec") [.direct]] := by
  simp [variantShapes, sampleVecData, Data.variants, classifyList,
    classify, registryKind]

theorem sampleVec_occ : dataOccurrences sampleVecData "A" sampleVecValue =
    [1, 2, 3] := by
  simp [dataOccurrences, sampleVecValue, sampleVec_shapes, occTup,
    occurrences, occRep]

theorem sampleVec_wf : WFData sampleVecData "A" sampleVecValue := by
  have htag : sampleVecValue.tag = 0 := rfl
  have hfields : sampleVecValue.fields =
      [.listV [.elem 1, .elem 2, .elem 3]] := rfl
  refine ⟨by simp [sampleVecData, Data.variants, htag], ?_, ?_⟩
  · rw [htag, sampleVec_shapes, hfields]
    rfl
  · intro pr hpr
    rw [htag, sampleVec_shapes, hfields] at hpr
    simp only [List.zip_cons_cons, List.zip_nil_right,
      List.mem_singleton] at hpr
    rw [hpr]
    refine WF.list "Vec" .direct _ ?_
    intro w hw
    simp only [List.mem_cons, List.mem_singleton,
      List.not_mem_nil, or_false] at hw
    rcases hw with rfl | rfl | rfl <;> exact WF.direct _

theorem try_fmap_returns_first_error_short_circuit_witness :
    WFData sampleVecData "A" sampleVecValue ∧
    (∀ a ∈ (dataOccurrences sampleVecData "A" sampleVecValue).take 2,
      sampleTryF a = sampleTryG a) ∧
    firstError sampleTryF
      ((dataOccurrences sampleVecData "A" sampleVecValue).take 2) =
      some "boom" ∧
    tryFmapData sampleVecData "A" sampleTryF sampleVecValue =
      .error "boom" ∧
    tryFmapData sampleVecData "A" sampleTryG sampleVecValue =
      .error "boom" := by
  have hagree : ∀ a ∈ (dataOccurrences sampleVecData "A"
      sampleVecValue).take 2, sampleTryF a = sampleTryG a := by
    rw [sampleVec_occ]
    intro a ha
    simp at ha
    rcases ha with rfl | rfl <;> rfl
  have herr : firstError sampleTryF
      ((dataOccurrences sampleVecData "A" sampleVecValue).take 2) =
      some "boom" := by
    rw [sampleVec_occ]
    rfl
  have hmain := try_fmap_returns_first_error_short_circuit sampleVecData
    "A" sampleTryF sampleTryG sampleVecValue 2 "boom" sampleVec_wf hagree
    herr
  exact ⟨sampleVec_wf, hagree, herr, hmain.1, hmain.2⟩

/-! ## C5: the identity transformation is the identity -/

theorem passThru_id (v : Value α) (h : noElem v = true) :
    passThru v = v := by
  refine
    (passThru.induct (β := α)
      (fun v => noElem v = true → passThru v = v)
      (fun es => noElemEntries es = true → passThruEntries es = es)
      (fun vs => noElemList vs = true → passThruList vs = vs)
      ?_ ?_ ?_ ?_ ?_ ?_ ?_ ?_ ?_ ?_ ?_ ?_ ?_ ?_ v) h
  all_goals intros
  all_goals
    simp_all [passThru, passThruList, passThruEntries, noElem,
      noElemList, noElemEntries]

theorem fmapTup_id (ss : List TypeShape) (vs : List (Value α))
    (hlen : ss.length = vs.length)
    (h : ∀ pr ∈ ss.zip vs, fmapShape (fun a => a) pr.1 pr.2 = pr.2) :
    fmapTup (fun a => a) ss vs = vs := by
  induction ss generalizing vs with
  | nil =>
    cases vs with
    | nil => simp [fmapTup]
    | cons v vs => simp at hlen
  | cons s ss ih =>
    cases vs with
    | nil => simp at hlen
    | cons v vs =>
      have h1 : fmapTup (fun a => a) (s :: ss) (v :: vs) =
          fmapShape (fun a => a) s v :: fmapTup (fun a => a) ss vs := by
        simp [fmapTup]
      rw [h1, h (s, v) (by simp),
        ih vs (by simpa using hlen) (fun pr hpr => h pr (by simp [hpr]))]

theorem fmapRep_id (s : TypeShape) (vs : List (Value α))
    (h : ∀ v ∈ vs, fmapShape (fun a => a) s v = v) :
    fmapRep (fun a => a) s vs = vs := by
  induction vs with
  | nil => simp [fmapRep]
  | cons v vs ih =>
    have h1 : fmapRep (fun a => a) s (v :: vs) =
        fmapShape (fun a => a) s v :: fmapRep (fun a => a) s vs := by
      simp [fmapRep]
    rw [h1, h v (by simp), ih (fun w hw => h w (by simp [hw]))]

theorem fmapEntries_id (s : TypeShape) (es : List (Nat × Value α))
    (h : ∀ e ∈ es, fmapShape (fun a => a) s e.2 = e.2) :
    fmapEntries (fun a => a) s es = es := by
  induction es with
  | nil => simp [fmapEntries]
  | cons e es ih =>
    obtain ⟨kk, v⟩ := e
    have h1 : fmapEntries (fun a => a) s ((kk, v) :: es) =
        (kk, fmapShape (fun a => a) s v) :: fmapEntries (fun a => a) s es := by
      simp [fmapEntries]
    rw [h1, h (kk, v) (by simp), ih (fun w hw => h w (by simp [hw]))]

theorem fmapShape_id (s : TypeShape) (v : Value α) (h : WF s v) :
    fmapShape (fun a => a) s v = v := by
  induction h with
  | direct a => simp [fmapShape]
  | opaq v hne =>
    have h1 : fmapShape (fun a => a) TypeShape.opaqueS v = passThru v := by
      simp [fmapShape]
    rw [h1, passThru_id v hne]
  | tup ss vs hlen hzip ih =>
    have h1 : fmapShape (fun a => a) (TypeShape.tuple ss) (Value.tup vs) =
        .tup (fmapTup (fun a => a) ss vs) := by simp [fmapShape]
    rw [h1, fmapTup_id ss vs hlen ih]
  | arr s n vs hlen hall ih =>
    have h1 : fmapShape (fun a => a) (TypeShape.array s n) (Value.arr vs) =
        .arr (fmapRep (fun a => a) s vs) := by simp [fmapShape]
    rw [h1, fmapRep_id s vs ih]
  | optNone s => simp [fmapShape]
  | optSome s w hw ih =>
    have h1 : fmapShape (fun a => a)
        (TypeShape.container (.singleValue "Option") [s])
        (Value.optV (some w)) = .optV (some (fmapShape (fun a => a) s w)) := by
      simp [fmapShape]
    rw [h1, ih]
  | box s w hw ih =>
    have h1 : fmapShape (fun a => a)
        (TypeShape.container (.singleValue "Box") [s]) (Value.boxV w) =
        .boxV (fmapShape (fun a => a) s w) := by simp [fmapShape]
    rw [h1, ih]
  | list k s vs hall ih =>
    have h1 : fmapShape (fun a => a)
        (TypeShape.container (.ordered k) [s]) (Value.listV vs) =
        .listV (fmapRep (fun a => a) s vs) := by simp [fmapShape]
    rw [h1, fmapRep_id s vs ih]
  | map k s es hall ih =>
    have h1 : fmapShape (fun a => a)
        (TypeShape.container (.keyed k) [s]) (Value.mapV es) =
        .mapV (fmapEntries (fun a => a) s es) := by simp [fmapShape]
    rw [h1, fmapEntries_id s es ih]
  | marker => simp [fmapShape]

/-- **C5.** For every well-formed value of any supported shape, applying
the generated total transform with the identity function returns a result
structurally and value-equal to the input. -/
theorem fmap_identity_preserves_value (d : Data) (p : String)
    (v : DataValue α) (hwf : WFData d p v) :
    fmapData d p (fun a => a) v = v := by
  obtain ⟨-, hlen, hzip⟩ := hwf
  have h1 : fmapTup (fun a => a) (variantShapes d p v.tag) v.fields =
      v.fields :=
    fmapTup_id _ _ hlen (fun pr hpr => fmapShape_id pr.1 pr.2 (hzip pr hpr))
  simp [fmapData, h1]

theorem fmap_identity_preserves_value_witness :
    WFData sampleVecData "A" sampleVecValue ∧
    fmapData sampleVecData "A" (fun a => a) sampleVecValue =
      sampleVecValue :=
  ⟨sampleVec_wf,
    fmap_identity_preserves_value sampleVecData "A" sampleVecValue
      sampleVec_wf⟩

/-! ## C6: parameter-free fields pass through unchanged, independently
of the function -/

theorem classifyList_getElem (ts : List RType) (p : String) (i : Nat) :
    (classifyList ts p)[i]? = (ts[i]?).map (fun t => classify t p) := by
  induction ts generalizing i with
  | nil => simp [classifyList]
  | cons t ts ih =>
    have h1 : classifyList (t :: ts) p =
        classify t p :: classifyList ts p := by simp [classifyList]
    rw [h1]
    cases i with
    | zero => simp
    | succ j => simp [ih]

theorem fmapTup_getElem (f : α → β) (ss : List TypeShape)
    (vs : List (Value α)) (i : Nat) (s : TypeShape) (v : Value α)
    (hs : ss[i]? = some s) (hv : vs[i]? = some v) :
    (fmapTup f ss vs)[i]? = some (fmapShape f s v) := by
  induction ss generalizing vs i with
  | nil => simp at hs
  | cons s' ss ih =>
    cases vs with
    | nil => simp at hv
    | cons v' vs =>
      have h1 : fmapTup f (s' :: ss) (v' :: vs) =
          fmapShape f s' v' :: fmapTup f ss vs := by simp [fmapTup]
      rw [h1]
      cases i with
      | zero =>
        simp only [List.getElem?_cons_zero, Option.some.injEq] at hs hv
        subst hs
        subst hv
        simp
      | succ j =>
        simp only [List.getElem?_cons_succ] at hs hv ⊢
        exact ih vs j hs hv

theorem mem_zip_of_getElem (ss : List TypeShape) (vs : List (Value α))
    (i : Nat) (s : TypeShape) (v : Value α)
    (hs : ss[i]? = some s) (hv : vs[i]? = some v) :
    (s, v) ∈ ss.zip vs := by
  induction ss generalizing vs i with
  | nil => simp at hs
  | cons s' ss ih =>
    cases vs with
    | nil => simp at hv
    | cons v' vs =>
      rw [List.zip_cons_cons]
      cases i with
      | zero =>
        simp only [List.getElem?_cons_zero, Option.some.injEq] at hs hv
        subst hs
        subst hv
        exact List.mem_cons_self _ _
      | succ j =>
        simp only [List.getElem?_cons_succ] at hs hv
        exact List.mem_cons_of_mem _ (ih vs j hs hv)

theorem shapeParamFreeList_forall (ss : List TypeShape)
    (h : shapeParamFreeList ss = true) :
    ∀ s ∈ ss, shapeParamFree s = true := by
  induction ss with
  | nil =>
    intro s hs
    simp at hs
  | cons s' ss ih =>
    have h2 : shapeParamFreeList (s' :: ss) =
        (shapeParamFree s' && shapeParamFreeList ss) := by
      simp [shapeParamFreeList]
    rw [h2, Bool.and_eq_true] at h
    intro s hs
    rcases List.mem_cons.mp hs with rfl | hs
    · exact h.1
    · exact ih h.2 s hs

theorem noElemList_of_forall (vs : List (Value α))
    (h : ∀ v ∈ vs, noElem v = true) : noElemList vs = true := by
  induction vs with
  | nil => simp [noElemList]
  | cons v vs ih =>
    have h2 : noElemList (v :: vs) = (noElem v && noElemList vs) := by
      simp [noElemList]
    rw [h2, Bool.and_eq_true]
    exact ⟨h v (List.mem_cons_self _ _),
      ih (fun w hw => h w (List.mem_cons_of_mem _ hw))⟩

theorem noElemEntries_of_forall (es : List (Nat × Value α))
    (h : ∀ e ∈ es, noElem e.2 = true) : noElemEntries es = true := by
  induction es with
  | nil => simp [noElemEntries]
  | cons e es ih =>
    obtain ⟨kk, v⟩ := e
    have h2 : noElemEntries ((kk, v) :: es) =
        (noElem v && noElemEntries es) := by simp [noElemEntries]
    rw [h2, Bool.and_eq_true]
    exact ⟨h (kk, v) (List.mem_cons_self _ _),
      ih (fun w hw => h w (List.mem_cons_of_mem _ hw))⟩

theorem mem_zip_right (l₁ : List γ) (l₂ : List δ)
    (hlen : l₁.length = l₂.length) (b : δ) (hb : b ∈ l₂) :
    ∃ a, (a, b) ∈ l₁.zip l₂ := by
  induction l₁ generalizing l₂ with
  | nil =>
    cases l₂ with
    | nil => simp at hb
    | cons b' l₂ => simp at hlen
  | cons a' l₁ ih =>
    cases l₂ with
    | nil => simp at hb
    | cons b' l₂ =>
      rcases List.mem_cons.mp hb with rfl | hb2
      · exact ⟨a', by simp⟩
      · obtain ⟨a, ha⟩ := ih l₂ (by simpa using hlen) hb2
        exact ⟨a, by simp [ha]⟩

theorem fmapTup_passThru (g : α → β) (ss : List TypeShape)
    (vs : List (Value α)) (hlen : ss.length = vs.length)
    (h : ∀ pr ∈ ss.zip vs, fmapShape g pr.1 pr.2 = passThru pr.2) :
    fmapTup g ss vs = passThruList vs := by
  induction ss generalizing vs with
  | nil =>
    cases vs with
    | nil => simp [fmapTup, passThruList]
    | cons v vs => simp at hlen
  | cons s ss ih =>
    cases vs with
    | nil => simp at hlen
    | cons v vs =>
      have h1 : fmapTup g (s :: ss) (v :: vs) =
          fmapShape g s v :: fmapTup g ss vs := by simp [fmapTup]
      have h2 : (passThruList (v :: vs) : List (Value β)) =
          passThru v :: passThruList vs := by simp [passThruList]
      rw [h1, h2, h (s, v) (by simp),
        ih vs (by simpa using hlen) (fun pr hpr => h pr (by simp [hpr]))]

theorem fmapRep_passThru (g : α → β) (s : TypeShape)
    (vs : List (Value α))
    (h : ∀ v ∈ vs, fmapShape g s v = passThru v) :
    fmapRep g s vs = passThruList vs := by
  induction vs with
  | nil => simp [fmapRep, passThruList]
  | cons v vs ih =>
    have h1 : fmapRep g s (v :: vs) =
        fmapShape g s v :: fmapRep g s vs := by simp [fmapRep]
    have h2 : (passThruList (v :: vs) : List (Value β)) =
        passThru v :: passThruList vs := by simp [passThruList]
    rw [h1, h2, h v (by simp), ih (fun w hw => h w (by simp [hw]))]

theorem fmapEntries_passThru (g : α → β) (s : TypeShape)
    (es : List (Nat × Value α))
    (h : ∀ e ∈ es, fmapShape g s e.2 = passThru e.2) :
    fmapEntries g s es = passThruEntries es := by
  induction es with
  | nil => simp [fmapEntries, passThruEntries]
  | cons e es ih =>
    obtain ⟨kk, v⟩ := e
    have h1 : fmapEntries g s ((kk, v) :: es) =
        (kk, fmapShape g s v) :: fmapEntries g s es := by
      simp [fmapEntries]
    have h2 : (passThruEntries ((kk, v) :: es) :
          List (Nat × Value β)) =
        (kk, passThru v) :: passThruEntries es := by simp [passThruEntries]
    rw [h1, h2, h (kk, v) (by simp), ih (fun w hw => h w (by simp [hw]))]

theorem classifyMarker_paramFree (args : List RType) (p : String)
    (h : occursInList args p = false) :
    shapeParamFree (classifyMarker args p) = true := by
  rcases args with _ | ⟨a, _ | ⟨b, rest⟩⟩
  · simp [classifyMarker, shapeParamFree]
  · cases a with
    | ident q =>
      have hq : q ≠ p := by
        simpa [occursInList, occursIn] using h
      simp [classifyMarker, hq, shapeParamFree]
    | paren t => simp [classifyMarker, shapeParamFree]
    | tuple ts => simp [classifyMarker, shapeParamFree]
    | array t len => simp [classifyMarker, shapeParamFree]
    | path nm args2 => simp [classifyMarker, shapeParamFree]
  · simp [classifyMarker, shapeParamFree]

theorem depth_pos (t : RType) : 1 ≤ t.depth := by
  cases t <;> simp [RType.depth]

theorem classify_paramFree_aux (n : Nat) :
    (∀ (t : RType) (p : String), t.depth ≤ n → occursIn t p = false →
      shapeParamFree (classify t p) = true) ∧
    (∀ (ts : List RType) (p : String), depthList ts ≤ n →
      occursInList ts p = false →
      shapeParamFreeList (classifyList ts p) = true) := by
  induction n with
  | zero =>
    constructor
    · intro t p h _
      have := depth_pos t
      omega
    · intro ts p h _
      cases ts with
      | nil => simp [classifyList, shapeParamFreeList]
      | cons t ts =>
        have h1 := depth_pos t
        have hd : depthList (t :: ts) = max t.depth (depthList ts) := by
          simp [depthList]
        omega
  | succ n ih =>
    obtain ⟨ih1, ihL⟩ := ih
    have P1 : ∀ (t : RType) (p : String), t.depth ≤ n + 1 →
        occursIn t p = false → shapeParamFree (classify t p) = true := by
      intro t p h hocc
      cases t with
      | ident m =>
        have hm : m ≠ p := by simpa [occursIn] using hocc
        simp [classify, hm, shapeParamFree]
      | paren t =>
        have hd : RType.depth (.paren t) = t.depth + 1 := by
          simp [RType.depth]
        have hocc2 : occursIn t p = false := by
          simpa [occursIn] using hocc
        have h2 : classify (.paren t) p = classify t p := by
          simp [classify]
        rw [h2]
        exact ih1 t p (by omega) hocc2
      | tuple ts =>
        have hd : RType.depth (.tuple ts) = depthList ts + 1 := by
          simp [RType.depth]
        have hocc2 : occursInList ts p = false := by
          simpa [occursIn] using hocc
        have h2 : classify (.tuple ts) p = .tuple (classifyList ts p) := by
          simp [classify]
        rw [h2]
        have h3 : shapeParamFree (.tuple (classifyList ts p)) =
            shapeParamFreeList (classifyList ts p) := by
          simp [shapeParamFree]
        rw [h3]
        exact ihL ts p (by omega) hocc2
      | array t len =>
        have hd : RType.depth (.array t len) = t.depth + 1 := by
          simp [RType.depth]
        have hocc2 : occursIn t p = false := by
          simpa [occursIn] using hocc
        have h2 : classify (.array t len) p =
            .array (classify t p) len := by simp [classify]
        rw [h2]
        have h3 : shapeParamFree (.array (classify t p) len) =
            shapeParamFree (classify t p) := by simp [shapeParamFree]
        rw [h3]
        exact ih1 t p (by omega) hocc2
      | path m args =>
        have hd : RType.depth (.path m args) = depthList args + 1 := by
          simp [RType.depth]
        have hocc2 : occursInList args p = false := by
          have h2 : occursIn (.path m args) p =
              ((m == p) || occursInList args p) := by simp [occursIn]
          rw [h2, Bool.or_eq_false_iff] at hocc
          exact hocc.2
        by_cases hm : m = "PhantomData"
        · subst hm
          have h2 : classify (.path "PhantomData" args) p =
              classifyMarker args p := by simp [classify]
          rw [h2]
          exact classifyMarker_paramFree args p hocc2
        · cases hreg : registryKind m with
          | none =>
            have h2 : classify (.path m args) p = .opaqueS := by
              simp [classify, hm, hreg]
            rw [h2]
            simp [shapeParamFree]
          | some k =>
            cases k with
            | singleValue nm =>
              rcases args with _ | ⟨a, _ | ⟨b, rest⟩⟩
              · simp [classify, hm, hreg, shapeParamFree]
              · have hda : a.depth ≤ n := by
                  have hd1 : depthList [a] = max a.depth 0 := by
                    simp [depthList]
                  omega
                have ha : occursIn a p = false := by
                  simpa [occursInList] using hocc2
                have h2 : classify (.path m [a]) p =
                    .container (.singleValue nm) [classify a p] := by
                  simp [classify, hm, hreg]
                rw [h2]
                simp [shapeParamFree, shapeParamFreeList,
                  ih1 a p hda ha]
              · simp [classify, hm, hreg, shapeParamFree]
            | ordered nm =>
              rcases args with _ | ⟨a, _ | ⟨b, rest⟩⟩
              · simp [classify, hm, hreg, shapeParamFree]
              · have hda : a.depth ≤ n := by
                  have hd1 : depthList [a] = max a.depth 0 := by
                    simp [depthList]
                  omega
                have ha : occursIn a p = false := by
                  simpa [occursInList] using hocc2
                have h2 : classify (.path m [a]) p =
                    .container (.ordered nm) [classify a p] := by
                  simp [classify, hm, hreg]
                rw [h2]
                simp [shapeParamFree, shapeParamFreeList,
                  ih1 a p hda ha]
              · simp [classify, hm, hreg, shapeParamFree]
            | keyed nm =>
              rcases args with _ | ⟨a, _ | ⟨b, _ | ⟨c, rest⟩⟩⟩
              · simp [classify, hm, hreg, shapeParamFree]
              · simp [classify, hm, hreg, shapeParamFree]
              · have hdb : b.depth ≤ n := by
                  have hd1 : depthList [a, b] =
                      max a.depth (max b.depth 0) := by simp [depthList]
                  omega
                have hb : occursIn b p = false := by
                  have h2 : occursInList [a, b] p =
                      (occursIn a p || (occursIn b p || false)) := by
                    simp [occursInList]
                  rw [h2, Bool.or_eq_false_iff, Bool.or_eq_false_iff]
                    at hocc2
                  exact hocc2.2.1
                have h2 : classify (.path m [a, b]) p =
                    .container (.keyed nm) [classify b p] := by
                  simp [classify, hm, hreg]
                rw [h2]
                simp [shapeParamFree, shapeParamFreeList,
                  ih1 b p hdb hb]
              · simp [classify, hm, hreg, shapeParamFree]
    refine ⟨P1, ?_⟩
    intro ts p
    induction ts with
    | nil =>
      intro _ _
      simp [classifyList, shapeParamFreeList]
    | cons t ts ihts =>
      intro h hocc
      have hd : depthList (t :: ts) = max t.depth (depthList ts) := by
        simp [depthList]
      have hocc2 : occursIn t p = false ∧ occursInList ts p = false := by
        have h2 : occursInList (t :: ts) p =
            (occursIn t p || occursInList ts p) := by simp [occursInList]
        rw [h2, Bool.or_eq_false_iff] at hocc
        exact hocc
      have he := P1 t p (by omega) hocc2.1
      have hts := ihts (by omega) hocc2.2
      have h2 : classifyList (t :: ts) p =
          classify t p :: classifyList ts p := by simp [classifyList]
      rw [h2]
      simp [shapeParamFreeList, he, hts]

theorem classify_paramFree (t : RType) (p : String)
    (h : occursIn t p = false) :
    shapeParamFree (classify t p) = true :=
  (classify_paramFree_aux t.depth).1 t p le_rfl h

theorem fmapShape_passThru_of_paramFree (g : α → β) (s : TypeShape)
    (v : Value α) (hWF : WF s v) :
    shapeParamFree s = true → fmapShape g s v = passThru v := by
  induction hWF with
  | direct a =>
    intro hpf
    simp [shapeParamFree] at hpf
  | opaq v hne =>
    intro _
    simp [fmapShape]
  | tup ss vs hlen hzip ih =>
    intro hpf
    have hpf3 := shapeParamFreeList_forall ss
      (by simpa [shapeParamFree] using hpf)
    have h1 : fmapShape g (TypeShape.tuple ss) (Value.tup vs) =
        .tup (fmapTup g ss vs) := by simp [fmapShape]
    have h2 : (passThru (Value.tup vs) : Value β) =
        Value.tup (passThruList vs) := by simp [passThru]
    rw [h1, h2, fmapTup_passThru g ss vs hlen
      (fun pr hpr => ih pr hpr (hpf3 pr.1 (List.of_mem_zip hpr).1))]
  | arr s n vs hlen hall ih =>
    intro hpf
    have hpf2 : shapeParamFree s = true := by
      simpa [shapeParamFree] using hpf
    have h1 : fmapShape g (TypeShape.array s n) (Value.arr vs) =
        .arr (fmapRep g s vs) := by simp [fmapShape]
    have h2 : (passThru (Value.arr vs) : Value β) =
        Value.arr (passThruList vs) := by simp [passThru]
    rw [h1, h2, fmapRep_passThru g s vs (fun v hv => ih v hv hpf2)]
  | optNone s =>
    intro _
    simp [fmapShape, passThru]
  | optSome s w hw ih =>
    intro hpf
    have hpf2 : shapeParamFree s = true := by
      simpa [shapeParamFree, shapeParamFreeList] using hpf
    have h1 : fmapShape g
        (TypeShape.container (.singleValue "Option") [s])
        (Value.optV (some w)) =
        .optV (some (fmapShape g s w)) := by simp [fmapShape]
    have h2 : (passThru (Value.optV (some w)) : Value β) =
        Value.optV (some (passThru w)) := by simp [passThru]
    rw [h1, h2, ih hpf2]
  | box s w hw ih =>
    intro hpf
    have hpf2 : shapeParamFree s = true := by
      simpa [shapeParamFree, shapeParamFreeList] using hpf
    have h1 : fmapShape g (TypeShape.container (.singleValue "Box") [s])
        (Value.boxV w) = .boxV (fmapShape g s w) := by simp [fmapShape]
    have h2 : (passThru (Value.boxV w) : Value β) =
        Value.boxV (passThru w) := by simp [passThru]
    rw [h1, h2, ih hpf2]
  | list k s vs hall ih =>
    intro hpf
    have hpf2 : shapeParamFree s = true := by
      simpa [shapeParamFree, shapeParamFreeList] using hpf
    have h1 : fmapShape g (TypeShape.container (.ordered k) [s])
        (Value.listV vs) = .listV (fmapRep g s vs) := by simp [fmapShape]
    have h2 : (passThru (Value.listV vs) : Value β) =
        Value.listV (passThruList vs) := by simp [passThru]
    rw [h1, h2, fmapRep_passThru g s vs (fun v hv => ih v hv hpf2)]
  | map k s es hall ih =>
    intro hpf
    have hpf2 : shapeParamFree s = true := by
      simpa [shapeParamFree, shapeParamFreeList] using hpf
    have h1 : fmapShape g (TypeShape.container (.keyed k) [s])
        (Value.mapV es) = .mapV (fmapEntries g s es) := by
      simp [fmapShape]
    have h2 : (passThru (Value.mapV es) : Value β) =
        Value.mapV (passThruEntries es) := by simp [passThru]
    rw [h1, h2, fmapEntries_passThru g s es (fun e he => ih e he hpf2)]
  | marker =>
    intro _
    simp [fmapShape, passThru]

theorem noElem_of_paramFree (s : TypeShape) (v : Value α)
    (hWF : WF s v) : shapeParamFree s = true → noElem v = true := by
  induction hWF with
  | direct a =>
    intro hpf
    simp [shapeParamFree] at hpf
  | opaq v hne =>
    intro _
    exact hne
  | tup ss vs hlen hzip ih =>
    intro hpf
    have hpf3 := shapeParamFreeList_forall ss
      (by simpa [shapeParamFree] using hpf)
    have hall : ∀ v ∈ vs, noElem v = true := by
      intro w hwv
      obtain ⟨s', hs'⟩ := mem_zip_right ss vs hlen w hwv
      exact ih (s', w) hs' (hpf3 s' (List.of_mem_zip hs').1)
    have h1 : noElem (Value.tup vs) = noElemList vs := by simp [noElem]
    rw [h1]
    exact noElemList_of_forall vs hall
  | arr s n vs hlen hall ih =>
    intro hpf
    have hpf2 : shapeParamFree s = true := by
      simpa [shapeParamFree] using hpf
    have h1 : noElem (Value.arr vs) = noElemList vs := by simp [noElem]
    rw [h1]
    exact noElemList_of_forall vs (fun w hw => ih w hw hpf2)
  | optNone s =>
    intro _
    simp [noElem]
  | optSome s w hw ih =>
    intro hpf
    have hpf2 : shapeParamFree s = true := by
      simpa [shapeParamFree, shapeParamFreeList] using hpf
    have h1 : noElem (Value.optV (some w)) = noElem w := by simp [noElem]
    rw [h1]
    exact ih hpf2
  | box s w hw ih =>
    intro hpf
    have hpf2 : shapeParamFree s = true := by
      simpa [shapeParamFree, shapeParamFreeList] using hpf
    have h1 : noElem (Value.boxV w) = noElem w := by simp [noElem]
    rw [h1]
    exact ih hpf2
  | list k s vs hall ih =>
    intro hpf
    have hpf2 : shapeParamFree s = true := by
      simpa [shapeParamFree, shapeParamFreeList] using hpf
    have h1 : noElem (Value.listV vs) = noElemList vs := by simp [noElem]
    rw [h1]
    exact noElemList_of_forall vs (fun w hw => ih w hw hpf2)
  | map k s es hall ih =>
    intro hpf
    have hpf2 : shapeParamFree s = true := by
      simpa [shapeParamFree, shapeParamFreeList] using hpf
    have h1 : noElem (Value.mapV es) = noElemEntries es := by
      simp [noElem]
    rw [h1]
    exact noElemEntries_of_forall es (fun e he => ih e he hpf2)
  | marker =>
    intro _
    simp [noElem]

/-- **C6.** A field whose declared type does not contain the target
parameter — the parameter identifier occurs nowhere in the field's type
expression, whatever structured shape the type classifies to — has a
value identical before and after the generated total transform, and a
result identical under any two supplied functions: the field's result is
independent of the supplied function. -/
theorem param_free_field_unchanged_and_independent
    (d : Data) (p : String) (v : DataValue α) (i : Nat) (t : RType)
    (f : α → α) (g₁ g₂ : α → β)
    (hwf : WFData d p v)
    (hty : (((d.variants).getD v.tag []).map Field.ty)[i]? = some t)
    (hfree : occursIn t p = false) :
    (fmapData d p f v).fields[i]? = v.fields[i]? ∧
    (fmapData d p g₁ v).fields[i]? = (fmapData d p g₂ v).fields[i]? := by
  obtain ⟨-, hlen, hzip⟩ := hwf
  have hshape : (variantShapes d p v.tag)[i]? = some (classify t p) := by
    unfold variantShapes
    rw [classifyList_getElem, hty]
    rfl
  have hpf : shapeParamFree (classify t p) = true :=
    classify_paramFree t p hfree
  have hi : i < (variantShapes d p v.tag).length :=
    (List.getElem?_eq_some.mp hshape).1
  have hif : i < v.fields.length := hlen ▸ hi
  obtain ⟨w, hw⟩ : ∃ w, v.fields[i]? = some w :=
    ⟨_, List.getElem?_eq_getElem hif⟩
  have hWFw : WF (classify t p) w :=
    hzip (classify t p, w) (mem_zip_of_getElem _ _ i _ _ hshape hw)
  have hne : noElem w = true := noElem_of_paramFree _ _ hWFw hpf
  constructor
  · show (fmapTup f (variantShapes d p v.tag) v.fields)[i]? =
      v.fields[i]?
    rw [fmapTup_getElem f _ _ i _ _ hshape hw, hw,
      fmapShape_passThru_of_paramFree f _ _ hWFw hpf,
      passThru_id w hne]
  · show (fmapTup g₁ (variantShapes d p v.tag) v.fields)[i]? =
      (fmapTup g₂ (variantShapes d p v.tag) v.fields)[i]?
    rw [fmapTup_getElem g₁ _ _ i _ _ hshape hw,
      fmapTup_getElem g₂ _ _ i _ _ hshape hw,
      fmapShape_passThru_of_paramFree g₁ _ _ hWFw hpf,
      fmapShape_passThru_of_paramFree g₂ _ _ hWFw hpf]

theorem param_free_field_unchanged_and_independent_witness :
    WFData sampleMixedData "A" sampleMixedValue ∧
    occursIn (.tuple [.ident "u32", .ident "u8"]) "A" = false ∧
    (fmapData sampleMixedData "A" (fun a => a)
        sampleMixedValue).fields[1]? = sampleMixedValue.fields[1]? ∧
    (fmapData sampleMixedData "A" (fun a : Nat => a + 1)
        sampleMixedValue).fields[1]? =
      (fmapData sampleMixedData "A" (fun a : Nat => 2 * a)
        sampleMixedValue).fields[1]? := by
  have hshapes : variantShapes sampleMixedData "A" 0 =
      [.direct, .tuple [.opaqueS, .opaqueS]] := by
    simp [variantShapes, sampleMixedData, Data.variants, classifyList,
      classify]
  have hwf : WFData sampleMixedData "A" sampleMixedValue := by
    have htag : sampleMixedValue.tag = 0 := rfl
    have hfields : sampleMixedValue.fields =
        [.elem 5, .tup [.prim 7, .prim 8]] := rfl
    refine ⟨by simp [sampleMixedData, Data.variants, htag], ?_, ?_⟩
    · rw [htag, hshapes, hfields]
      rfl
    · intro pr hpr
      rw [htag, hshapes, hfields] at hpr
      simp only [List.zip_cons_cons, List.zip_nil_right,
        List.mem_cons, List.mem_singleton, List.not_mem_nil,
        or_false] at hpr
      rcases hpr with rfl | rfl
      · exact WF.direct 5
      · refine WF.tup _ _ rfl ?_
        intro pr2 hpr2
        simp only [List.zip_cons_cons, List.zip_nil_right,
          List.mem_cons, List.mem_singleton, List.not_mem_nil,
          or_false] at hpr2
        rcases hpr2 with rfl | rfl
        · exact WF.opaq _ (by simp [noElem])
        · exact WF.opaq _ (by simp [noElem])
  have hfree : occursIn (.tuple [.ident "u32", .ident "u8"]) "A" =
      false := by
    simp [occursIn, occursInList]
  have hmain := param_free_field_unchanged_and_independent
    sampleMixedData "A" sampleMixedValue 1
    (.tuple [.ident "u32", .ident "u8"]) (fun a => a)
    (fun a : Nat => a + 1) (fun a : Nat => 2 * a) hwf rfl hfree
  exact ⟨hwf, hfree, hmain.1, hmain.2⟩

/-! ## C8: the Shape Analyzer is total and terminates within the type's
syntactic depth -/

theorem classifyFuel_complete (n : Nat) :
    (∀ (t : RType) (p : String), t.depth ≤ n →
      classifyFuel n t p = some (classify t p)) ∧
    (∀ (ts : List RType) (p : String), depthList ts ≤ n →
      classifyFuelList n ts p = some (classifyList ts p)) := by
  induction n with
  | zero =>
    constructor
    · intro t p h
      have := depth_pos t
      omega
    · intro ts p h
      cases ts with
      | nil => simp [classifyFuelList, classifyList]
      | cons t ts =>
        have h1 := depth_pos t
        have hd : depthList (t :: ts) = max t.depth (depthList ts) := by
          simp [depthList]
        omega
  | succ n ih =>
    obtain ⟨ih1, ihL⟩ := ih
    have P1 : ∀ (t : RType) (p : String), t.depth ≤ n + 1 →
        classifyFuel (n + 1) t p = some (classify t p) := by
      intro t p h
      cases t with
      | ident m => simp [classifyFuel, classify]
      | paren t =>
        have hd : RType.depth (.paren t) = t.depth + 1 := by
          simp [RType.depth]
        have h1 : classifyFuel (n + 1) (.paren t) p =
            classifyFuel n t p := by simp [classifyFuel]
        have h2 : classify (.paren t) p = classify t p := by
          simp [classify]
        rw [h1, h2, ih1 t p (by omega)]
      | tuple ts =>
        have hd : RType.depth (.tuple ts) = depthList ts + 1 := by
          simp [RType.depth]
        have h1 : classifyFuel (n + 1) (.tuple ts) p =
            (classifyFuelList n ts p).map .tuple := by simp [classifyFuel]
        have h2 : classify (.tuple ts) p = .tuple (classifyList ts p) := by
          simp [classify]
        rw [h1, h2, ihL ts p (by omega)]
        rfl
      | array t len =>
        have hd : RType.depth (.array t len) = t.depth + 1 := by
          simp [RType.depth]
        have h1 : classifyFuel (n + 1) (.array t len) p =
            (classifyFuel n t p).map (fun s => .array s len) := by
          simp [classifyFuel]
        have h2 : classify (.array t len) p =
            .array (classify t p) len := by simp [classify]
        rw [h1, h2, ih1 t p (by omega)]
        rfl
      | path m args =>
        have hd : RType.depth (.path m args) = depthList args + 1 := by
          simp [RType.depth]
        by_cases hm : m = "PhantomData"
        · subst hm
          have h1 : classifyFuel (n + 1) (.path "PhantomData" args) p =
              some (classifyMarker args p) := by simp [classifyFuel]
          have h2 : classify (.path "PhantomData" args) p =
              classifyMarker args p := by simp [classify]
          rw [h1, h2]
        · cases hreg : registryKind m with
          | none =>
            have h1 : classifyFuel (n + 1) (.path m args) p =
                some .opaqueS := by simp [classifyFuel, hm, hreg]
            have h2 : classify (.path m args) p = .opaqueS := by
              simp [classify, hm, hreg]
            rw [h1, h2]
          | some k =>
            cases k with
            | singleValue nm =>
              rcases args with _ | ⟨a, _ | ⟨b, rest⟩⟩
              · simp [classifyFuel, classify, hm, hreg]
              · have hda : a.depth ≤ n := by
                  have hd1 : depthList [a] = max a.depth 0 := by
                    simp [depthList]
                  omega
                have h1 : classifyFuel (n + 1) (.path m [a]) p =
                    (classifyFuel n a p).map
                      (fun s => .container (.singleValue nm) [s]) := by
                  simp [classifyFuel, hm, hreg]
                have h2 : classify (.path m [a]) p =
                    .container (.singleValue nm) [classify a p] := by
                  simp [classify, hm, hreg]
                rw [h1, h2, ih1 a p hda]
                rfl
              · simp [classifyFuel, classify, hm, hreg]
            | ordered nm =>
              rcases args with _ | ⟨a, _ | ⟨b, rest⟩⟩
              · simp [classifyFuel, classify, hm, hreg]
              · have hda : a.depth ≤ n := by
                  have hd1 : depthList [a] = max a.depth 0 := by
                    simp [depthList]
                  omega
                have h1 : classifyFuel (n + 1) (.path m [a]) p =
                    (classifyFuel n a p).map
                      (fun s => .container (.ordered nm) [s]) := by
                  simp [classifyFuel, hm, hreg]
                have h2 : classify (.path m [a]) p =
                    .container (.ordered nm) [classify a p] := by
                  simp [classify, hm, hreg]
                rw [h1, h2, ih1 a p hda]
                rfl
              · simp [classifyFuel, classify, hm, hreg]
            | keyed nm =>
              rcases args with _ | ⟨a, _ | ⟨b, _ | ⟨c, rest⟩⟩⟩
              · simp [classifyFuel, classify, hm, hreg]
              · simp [classifyFuel, classify, hm, hreg]
              · have hdb : b.depth ≤ n := by
                  have hd1 : depthList [a, b] =
                      max a.depth (max b.depth 0) := by simp [depthList]
                  omega
                have h1 : classifyFuel (n + 1) (.path m [a, b]) p =
                    (classifyFuel n b p).map
                      (fun s => .container (.keyed nm) [s]) := by
                  simp [classifyFuel, hm, hreg]
                have h2 : classify (.path m [a, b]) p =
                    .container (.keyed nm) [classify b p] := by
                  simp [classify, hm, hreg]
                rw [h1, h2, ih1 b p hdb]
                rfl
              · simp [classifyFuel, classify, hm, hreg]
    refine ⟨P1, ?_⟩
    intro ts p
    induction ts with
    | nil =>
      intro _
      simp [classifyFuelList, classifyList]
    | cons t ts ihts =>
      intro h
      have hd : depthList (t :: ts) = max t.depth (depthList ts) := by
        simp [depthList]
      have he := P1 t p (by omega)
      have hts := ihts (by omega)
      have h2 : classifyList (t :: ts) p =
          classify t p :: classifyList ts p := by simp [classifyList]
      rw [h2]
      simp [classifyFuelList, he, hts]

/-- **C8.** The Shape Analyzer is total and never errs: for every declared
field type expression and target parameter identifier, classification
terminates within fuel bounded by the type's syntactic depth, producing
exactly the one `TypeShape` that `classify` assigns (worst case
`Opaque`); the fuel-instrumented analyzer never returns `none` when given
at least `depth t` fuel. -/
theorem analyzer_total_terminates_within_depth
    (t : RType) (p : String) (n : Nat) (h : t.depth ≤ n) :
    classifyFuel n t p = some (classify t p) :=
  (classifyFuel_complete n).1 t p h

theorem analyzer_total_terminates_within_depth_witness :
    (RType.depth (.path "Vec" [.paren (.ident "A")]) ≤ 3) ∧
    classifyFuel 3 (.path "Vec" [.paren (.ident "A")]) "A" =
      some (classify (.path "Vec" [.paren (.ident "A")]) "A") :=
  ⟨by simp [RType.depth, depthList],
    analyzer_total_terminates_within_depth _ "A" 3
      (by simp [RType.depth, depthList])⟩

end FunctorDerive
